import Mathlib

/-!
Verification of the data aggregation engine of the ladino-diksionaryo-code
repository (src/ladino/generate.py and src/ladino/load.py) against its
natural-language specification.

The embedding models YAML records as Lean structures, Python dicts as
insertion-ordered association lists, Python exceptions (`LadinoError`,
`KeyError`, `IndexError`, `TypeError`) as an `Except PyErr` monad, and
Python's stable `list.sort(key=...)` as Mathlib's stable `List.insertionSort`
applied after computing the key of every element (as CPython does).

The pipeline actually executed by `generate.main` is
`generate.load_dictionary` followed by `generate.collect_data`; these are the
functions embedded below.  (`src/ladino/load.py` contains a second, similar
loader that is not imported by `generate.py`.)
-/

set_option maxHeartbeats 1000000

namespace Ladino

/-- Python exceptions that can escape the embedded code: the domain error
`LadinoError` (carrying its message) and the builtin `KeyError`,
`IndexError` and `TypeError`. -/
inductive PyErr where
  | ladino (msg : String)
  | keyErr (key : String)
  | idxErr
  | typeErr (cls : String)
  deriving DecidableEq, Repr

/-- A YAML scalar-or-list value found under a language key of a
`translations` mapping.  `other` stands for a value of any further Python
type, carrying its class name and its `repr` (the code only ever inspects
the class name and interpolates the repr into error messages). -/
inductive TransValue where
  | str (s : String)
  | list (l : List String)
  | other (cls : String) (rep : String)
  deriving DecidableEq, Repr

/-- An element of a record's `examples` list: either a bare string or a
mapping from language-or-special-key to text (in the YAML sources it is a
mapping; the loader in `load.py` rejects bare strings, `generate.py`'s
loader accepts both shapes). -/
inductive PyExample where
  | str (s : String)
  | map (m : List (String × String))
  deriving DecidableEq, Repr

/-- An element of a version's `alternative-spelling` list: a mini-version
with a required `ladino` headword and an optional `accented` form. -/
structure AltEntry where
  ladino : String
  accented : Option String
  deriving DecidableEq, Repr

/-- A raw version payload as parsed from a record file: the shape read from
`data['versions'][i]` (and from conjugation payloads) before the loader
mutates it.  Fields the code never writes at parse time (`source`,
`examples`, `comments`) are not present here; the loader adds them. -/
structure RawVersion where
  ladino : Option String
  accented : Option String
  gender : Option String
  number : Option String
  translations : Option (List (String × TransValue))
  altSpelling : Option (List AltEntry)
  deriving DecidableEq, Repr

/-- A raw word record as parsed from one YAML file in the dictionary
directory. -/
structure RawRecord where
  grammar : Option String
  origen : Option String
  categories : Option (List String)
  versions : Option (List RawVersion)
  examples : Option (List PyExample)
  comments : Option (List String)
  conjugations : Option (List (String × List (String × RawVersion)))
  deriving DecidableEq, Repr

/-- A processed version as appended to the loader's `words` list: the raw
version enriched with `source` and, for the first version of a record,
`examples`/`comments`; translation values under known language keys have
been coerced to lists by `_make_them_list`. -/
structure Entry where
  ladino : String
  accented : Option String
  gender : Option String
  number : Option String
  translations : Option (List (String × TransValue))
  altSpelling : Option (List AltEntry)
  source : String
  examples : Option (List PyExample)
  comments : Option (List String)
  deriving DecidableEq, Repr

/-- An element of the loader's global `all_examples` list:
`{'example': ..., 'word': headword.lower(), 'source': filename}`. -/
structure ExampleRec where
  ex : PyExample
  word : String
  source : String
  deriving DecidableEq, Repr

/-- The configuration vocabularies read from `config.yaml` that the embedded
code consults. -/
structure Config where
  gramatika : List String
  origenes : List String
  kategorias : List String
  gender : List String
  numero : List String
  tiempos : List String
  pronombres : List String
  deriving DecidableEq, Repr

/-- The module-level list of known foreign languages
(`generate.py` line 22). -/
def pylanguages : List String :=
  ["english", "french", "hebrew", "spanish", "turkish", "portuguese"]

/-- Lookup in an insertion-ordered association list (Python `d[k]` /
`d.get(k)` semantics). -/
def alfind {α : Type} (m : List (String × α)) (k : String) : Option α :=
  match m with
  | [] => none
  | (k', v) :: rest => if k' = k then some v else alfind rest k

/-- Update in an insertion-ordered association list (Python `d[k] = v`
semantics: an existing key keeps its position, a new key is appended at the
end). -/
def alinsert {α : Type} (m : List (String × α)) (k : String) (v : α) :
    List (String × α) :=
  match m with
  | [] => [(k, v)]
  | (k', v') :: rest =>
    if k' = k then (k, v) :: rest else (k', v') :: alinsert rest k v

/-- Left fold in the `Except` monad, written as explicit recursion so the
claims can be proved by structural induction; models a Python `for` loop
that may `raise`. -/
def foldE {σ α : Type} (f : σ → α → Except PyErr σ) (s : σ) :
    List α → Except PyErr σ
  | [] => .ok s
  | a :: rest =>
    match f s a with
    | .error e => .error e
    | .ok s' => foldE f s' rest

/-- Monadic map in the `Except` monad, written as explicit recursion. -/
def mapE {α β : Type} (f : α → Except PyErr β) : List α → Except PyErr (List β)
  | [] => .ok []
  | a :: rest =>
    match f a with
    | .error e => .error e
    | .ok b =>
      match mapE f rest with
      | .error e => .error e
      | .ok bs => .ok (b :: bs)

/-- Python `str.lower()`, modelled on the code-point list of the string
(core `String.toLower` is extensionally the same but does not reduce in the
kernel). -/
def pyLower (s : String) : String := String.mk (s.data.map Char.toLower)

/-- Python string comparison `a < b`: lexicographic on code points, a
proper prefix being smaller. -/
def pylts (a b : String) : Prop := a.data < b.data

/-- Python string comparison `a <= b`. -/
def pyles (a b : String) : Prop := a.data ≤ b.data

instance : DecidableRel pylts := fun a b =>
  inferInstanceAs (Decidable (a.data < b.data))

instance : DecidableRel pyles := fun a b =>
  inferInstanceAs (Decidable (a.data ≤ b.data))

/-- Python `sorted(set(l))` for a list of strings: the distinct elements in
ascending code-point order. -/
def pySortedSet (l : List String) : List String :=
  List.insertionSort pyles l.dedup

/-- Python substring test `pat in s` on strings. -/
def pySubstr (pat s : String) : Bool := decide (pat.data <:+: s.data)

/-- Join a list of strings with a separator (Python `', '.join(...)`,
used to model `repr` of containers). -/
def joinSep (sep : String) : List String → String
  | [] => ""
  | [x] => x
  | x :: rest => x ++ sep ++ joinSep sep rest

/-- Python `repr` of a string as interpolated into f-string error messages
(single quotes, ignoring escape corner cases). -/
def pyReprStr (s : String) : String := "'" ++ s ++ "'"

/-- Python `repr` of a list of strings. -/
def pyReprStrList (l : List String) : String :=
  "[" ++ joinSep ", " (l.map pyReprStr) ++ "]"

/-- Python `repr` of a translations value. -/
def pyReprTransValue : TransValue → String
  | .str s => pyReprStr s
  | .list l => pyReprStrList l
  | .other _ rep => rep

/-- Python `repr` of a translations mapping (a dict in insertion order). -/
def pyReprTranslations (tr : List (String × TransValue)) : String :=
  "\x7b" ++
    joinSep ", " (tr.map fun p => pyReprStr p.1 ++ ": " ++ pyReprTransValue p.2) ++
  "\x7d"

/-- Python `repr` of an alternative-spelling mini-version. -/
def pyReprAltEntry (a : AltEntry) : String :=
  "\x7b" ++
    joinSep ", " ([pyReprStr "ladino" ++ ": " ++ pyReprStr a.ladino] ++
      (match a.accented with
       | none => []
       | some ac => [pyReprStr "accented" ++ ": " ++ pyReprStr ac])) ++
  "\x7d"

/-- Python `repr` of a raw version dict as interpolated into the noun
gender/number error messages; fields appear in the fixed order
ladino, accented, gender, number, translations, alternative-spelling
(the embedding's stand-in for the YAML insertion order). -/
def pyReprRawVersion (v : RawVersion) : String :=
  "\x7b" ++
    joinSep ", "
      ((match v.ladino with
        | none => [] | some l => [pyReprStr "ladino" ++ ": " ++ pyReprStr l]) ++
       (match v.accented with
        | none => [] | some a => [pyReprStr "accented" ++ ": " ++ pyReprStr a]) ++
       (match v.gender with
        | none => [] | some g => [pyReprStr "gender" ++ ": " ++ pyReprStr g]) ++
       (match v.number with
        | none => [] | some n => [pyReprStr "number" ++ ": " ++ pyReprStr n]) ++
       (match v.translations with
        | none => []
        | some tr => [pyReprStr "translations" ++ ": " ++ pyReprTranslations tr]) ++
       (match v.altSpelling with
        | none => []
        | some alts => [pyReprStr "alternative-spelling" ++ ": " ++
            "[" ++ joinSep ", " (alts.map pyReprAltEntry) ++ "]"])) ++
  "\x7d"

/-! ## The loader of `generate.py` (`load_dictionary`, lines 205-293) -/

/-- Embeds `generate.check_grammar` (lines 196-202): requires the `grammar`
field to be present and in the configured vocabulary, returning it. -/
def check_grammar (config : Config) (data : RawRecord) (filename : String) :
    Except PyErr String :=
  match data.grammar with
  | none => .error (.ladino ("The 'grammar' field is missing from file '" ++ filename ++ "'"))
  | some grammar =>
    if grammar ∈ config.gramatika then .ok grammar
    else .error (.ladino ("Invalid grammar '" ++ grammar ++ "' in file '" ++ filename ++ "'"))

/-- Embeds `generate.check_origen` (lines 189-194). -/
def check_origen (config : Config) (data : RawRecord) (filename : String) :
    Except PyErr Unit :=
  match data.origen with
  | none => .error (.ladino ("The 'origen' field is missing from file '" ++ filename ++ "'"))
  | some origen =>
    if origen ∈ config.origenes then .ok ()
    else .error (.ladino ("Invalid origen '" ++ origen ++ "' in file '" ++ filename ++ "'"))

/-- Embeds `generate.check_categories` (lines 182-187): every declared
category must be in the configured vocabulary. -/
def check_categories (config : Config) (data : RawRecord) (filename : String) :
    Except PyErr Unit :=
  match data.categories with
  | none => .ok ()
  | some cats =>
    foldE (fun _ cat =>
      if cat ∈ config.kategorias then .ok ()
      else .error (.ladino ("Invalid category '" ++ cat ++ "' in file '" ++ filename ++ "'")))
      () cats

/-- Embeds `generate._make_it_list` (lines 163-173), identical to
`load.make_it_list` (load.py lines 76-86): coerce the value stored under
`language` in a translations mapping to a list of target words.  Indexing a
missing key is a `KeyError` (in the code the call is guarded by a
membership test). -/
def make_it_list (translations : List (String × TransValue))
    (language filename : String) : Except PyErr (List String) :=
  match alfind translations language with
  | none => .error (.keyErr language)
  | some (.str s) => if s = "" then .ok [] else .ok [s]
  | some (.list l) => .ok l
  | some (.other cls _) =>
    .error (.ladino ("bad type " ++ cls ++ " for " ++ language ++ " in " ++
      pyReprTranslations translations ++ " in '" ++ filename ++ "'"))

/-- Embeds `generate._make_them_list` (lines 176-180), identical to
`load.make_them_list`: coerce the value under every known language key that
is present in the mapping. -/
def make_them_list (translations : List (String × TransValue))
    (filename : String) : Except PyErr (List (String × TransValue)) :=
  foldE (fun tr language =>
    if (alfind tr language).isSome then
      match make_it_list tr language filename with
      | .error e => .error e
      | .ok l => .ok (alinsert tr language (.list l))
    else .ok tr) translations pylanguages

/-- The `if 'translations' in version: _make_them_list(...)` step applied
to a version's optional translations mapping. -/
def coerceTranslations (tr? : Option (List (String × TransValue)))
    (filename : String) : Except PyErr (Option (List (String × TransValue))) :=
  match tr? with
  | none => .ok none
  | some tr =>
    match make_them_list tr filename with
    | .error e => .error e
    | .ok tr' => .ok (some tr')

/-- The loader's normalization `if examples == []: examples = None` (and
the same for comments). -/
def normEmpties {α : Type} : Option (List α) → Option (List α)
  | some [] => none
  | x => x

/-- Embeds the per-version noun validation of `generate.load_dictionary`
(lines 231-242): every raw version of a noun record must carry a gender and
a number drawn from the configured vocabularies. -/
def checkNounVersions (config : Config) (versions : List RawVersion)
    (filename : String) : Except PyErr Unit :=
  foldE (fun _ version =>
    match version.gender with
    | none => .error (.ladino ("The 'gender' field is None in '" ++ filename ++
        "' version " ++ pyReprRawVersion version))
    | some gender =>
      if gender ∉ config.gender then
        .error (.ladino ("Invalid value '" ++ gender ++ "' in 'gender' field in '" ++
          filename ++ "' version " ++ pyReprRawVersion version))
      else
        match version.number with
        | none => .error (.ladino ("The 'number' field is None in '" ++ filename ++
            "' version " ++ pyReprRawVersion version))
        | some number =>
          if number ∉ config.numero then
            .error (.ladino ("The 'number' field is '" ++ number ++ "' in '" ++
              filename ++ "' version " ++ pyReprRawVersion version))
          else .ok ()) () versions

/-- Embeds the per-record validation prefix of `generate.load_dictionary`
(lines 219-251), in the order the code performs it: grammar, origen,
categories, versions-presence, verb/conjugations consistency, noun
gender/number, examples-presence; returns the grammar, the versions and the
normalized examples and comments. -/
def recordChecks (config : Config) (data : RawRecord) (filename : String) :
    Except PyErr (String × List RawVersion × Option (List PyExample) × Option (List String)) :=
  match check_grammar config data filename with
  | .error e => .error e
  | .ok grammar =>
    match check_origen config data filename with
    | .error e => .error e
    | .ok _ =>
      match check_categories config data filename with
      | .error e => .error e
      | .ok _ =>
        match data.versions with
        | none => .error (.ladino ("The 'versions' field is missing from file '" ++
            filename ++ "'"))
        | some versions =>
          if grammar = "verb" ∧ data.conjugations = none then
            .error (.ladino ("Grammar is 'verb', but there is NO 'conjugations' field in '" ++
              filename ++ "'"))
          else if grammar ≠ "verb" ∧ data.conjugations ≠ none then
            .error (.ladino ("Grammar is NOT a 'verb', but there are conjugations in '" ++
              filename ++ "'"))
          else
            match (if grammar ∈ ["noun"] then
                checkNounVersions config versions filename else .ok ()) with
            | .error e => .error e
            | .ok _ =>
              match data.examples with
              | none => .error (.ladino ("The 'examples' field is missing in '" ++
                  filename ++ "'"))
              | some exs0 =>
                .ok (grammar, versions, normEmpties (some exs0), normEmpties data.comments)

/-- Embeds the version loop of `generate.load_dictionary` (lines 253-274):
each version needs a `ladino` headword, gets `source` set and translations
coerced; the pending examples and comments are attached to the first
version only, and one global example record (tagged with the lowercased
headword and the filename) is appended per pending example. -/
def processVersions (filename : String) (exs : Option (List PyExample))
    (cms : Option (List String)) :
    List RawVersion → Except PyErr (List Entry × List ExampleRec)
  | [] => .ok ([], [])
  | version :: rest =>
    match version.ladino with
    | none => .error (.ladino ("The ladino 'version' is missing from file '" ++
        filename ++ "'"))
    | some lad =>
      match coerceTranslations version.translations filename with
      | .error e => .error e
      | .ok tr =>
        let entry : Entry :=
          { ladino := lad, accented := version.accented, gender := version.gender,
            number := version.number, translations := tr,
            altSpelling := version.altSpelling, source := filename,
            examples := exs, comments := cms }
        let aes : List ExampleRec :=
          match exs with
          | none => []
          | some es => es.map fun e =>
              { ex := e, word := pyLower lad, source := filename }
        match processVersions filename none none rest with
        | .error e => .error e
        | .ok (ws, aes2) => .ok (entry :: ws, aes ++ aes2)

/-- The tense vocabulary hard-coded in `generate.load_dictionary` line 276
(the code shadows `config['tiempos']` with this literal list). -/
def tiempos_hardcoded : List String := ["present indicative", "pasado simple"]

/-- The pronoun vocabulary hard-coded in `generate.load_dictionary`
line 277. -/
def pronombres_hardcoded : List String :=
  ["yo", "tu", "el", "mozotros", "vozotros", "eyos"]

/-- Embeds the inner pronoun loop of the conjugation expansion
(lines 283-291): each pronoun must be recognized, its payload needs a
`ladino` field, and the resulting version (source-tagged,
translation-coerced, without examples or comments) is appended. -/
def processConjPronouns (filename verb_time : String) (ws : List Entry) :
    List (String × RawVersion) → Except PyErr (List Entry)
  | [] => .ok ws
  | (pronoun, version) :: rest =>
    if pronoun ∉ pronombres_hardcoded then
      .error (.ladino ("Incorrect pronoun '" ++ pronoun ++ "' in verb time '" ++
        verb_time ++ "' in '" ++ filename ++ "'"))
    else
      match version.ladino with
      | none => .error (.ladino ("The field 'ladino' is missing from verb time: '" ++
          verb_time ++ "' pronoun '" ++ pronoun ++ "' in file '" ++ filename ++ "'"))
      | some lad =>
        match coerceTranslations version.translations filename with
        | .error e => .error e
        | .ok tr =>
          processConjPronouns filename verb_time
            (ws ++ [{ ladino := lad, accented := version.accented,
                      gender := version.gender, number := version.number,
                      translations := tr, altSpelling := version.altSpelling,
                      source := filename, examples := none, comments := none }])
            rest

/-- Embeds the outer tense loop of the conjugation expansion
(lines 279-291): each tense key must be in the hard-coded tense list. -/
def processConjugations (filename : String) (ws : List Entry) :
    List (String × List (String × RawVersion)) → Except PyErr (List Entry)
  | [] => .ok ws
  | (verb_time, conjugation) :: rest =>
    if verb_time ∉ tiempos_hardcoded then
      .error (.ladino ("Verb conjugation time '" ++ verb_time ++
        "' is no recogrnized in '" ++ filename ++ "'"))
    else
      match processConjPronouns filename verb_time ws conjugation with
      | .error e => .error e
      | .ok ws' => processConjugations filename ws' rest

/-- Embeds the per-file body of `generate.load_dictionary`: validation
followed by version processing and, when a `conjugations` field is present,
conjugation expansion. -/
def processFile (config : Config) (filename : String) (data : RawRecord) :
    Except PyErr (List Entry × List ExampleRec) :=
  match recordChecks config data filename with
  | .error e => .error e
  | .ok (_, versions, exs, cms) =>
    match processVersions filename exs cms versions with
    | .error e => .error e
    | .ok (ws, aes) =>
      match data.conjugations with
      | none => .ok (ws, aes)
      | some conj =>
        match processConjugations filename ws conj with
        | .error e => .error e
        | .ok ws2 => .ok (ws2, aes)

/-- Embeds `generate.load_dictionary` (lines 205-293) over an already
parsed directory listing: the (filename, record) pairs in listing order,
accumulating the flat version list and the global example list, aborting at
the first invalid file. -/
def load_dictionary (config : Config) (files : List (String × RawRecord)) :
    Except PyErr (List Entry × List ExampleRec) :=
  foldE (fun acc fd =>
    match processFile config fd.1 fd.2 with
    | .error e => .error e
    | .ok (ws, aes) => .ok (acc.1 ++ ws, acc.2 ++ aes)) ([], []) files

/-! ## The cross-index builder of `generate.py` (`collect_data`, lines 295-370) -/

/-- Python iteration over a translations value (`extend(target_words)`,
`for word in translations`): a list yields its elements, a string yields
its characters as one-character strings, any other value raises
`TypeError`. -/
def iterVal : TransValue → Except PyErr (List String)
  | .str s => .ok (s.data.map fun c => String.mk [c])
  | .list l => .ok l
  | .other cls _ => .error (.typeErr cls)

/-- Python `'ladino' in example`: a key test on a mapping, a substring test
on a bare string. -/
def exampleHasLadino : PyExample → Bool
  | .map m => (alfind m "ladino").isSome
  | .str s => pySubstr "ladino" s

/-- Number of examples of an entry containing `'ladino'`
(`_add_ladino_word` lines 307-309); the per-example `+= 1` loop is modelled
by its net effect. -/
def countLadinoExamples (e : Entry) : Nat :=
  (e.examples.getD []).countP exampleHasLadino

/-- One hexadecimal digit. -/
def hexDigit (n : Nat) : Char :=
  if n < 10 then Char.ofNat (48 + n) else Char.ofNat (87 + n)

/-- Four-digit lowercase hexadecimal rendering of a scalar value below
0x10000 (the `\u` escapes of `json.dumps` with `ensure_ascii=True`;
astral code points, which Python renders as surrogate pairs, are rendered
here as a single six-digit escape — a size-only approximation never hit by
the data). -/
def hex4 (n : Nat) : String :=
  let ds :=
    if n = 0 then ['0'] else
      (List.range 6).foldl (fun acc i =>
        let d := n / 16 ^ (5 - i) % 16
        if acc.isEmpty ∧ d = 0 then acc else acc ++ [hexDigit d]) []
  String.mk (List.replicate (4 - ds.length) '0') ++ String.mk ds

/-- JSON escaping of one character as `json.dumps` does with the default
`ensure_ascii=True`. -/
def jsonEscapeChar (c : Char) : String :=
  if c = '"' then "\\\""
  else if c = '\\' then "\\\\"
  else if c = '\n' then "\\n"
  else if c = '\t' then "\\t"
  else if c = '\r' then "\\r"
  else if c.toNat < 32 ∨ c.toNat > 126 then "\\u" ++ hex4 c.toNat
  else String.mk [c]

/-- JSON rendering of a string. -/
def jsonStr (s : String) : String :=
  "\"" ++ joinSep "" (s.data.map jsonEscapeChar) ++ "\""

/-- Dict keys in ascending order (`json.dumps(..., sort_keys=True)`). -/
def sortKeys {α : Type} (m : List (String × α)) : List (String × α) :=
  List.insertionSort (fun a b => pyles a.1 b.1) m

/-- JSON rendering of a translations value; a value that is neither a
string nor a list is not JSON-serializable (`TypeError`). -/
def jsonTransValue : TransValue → Except PyErr String
  | .str s => .ok (jsonStr s)
  | .list l => .ok ("[" ++ joinSep ", " (l.map jsonStr) ++ "]")
  | .other cls _ => .error (.typeErr cls)

/-- JSON rendering of an example. -/
def jsonExample : PyExample → String
  | .str s => jsonStr s
  | .map m => "\x7b" ++
      joinSep ", " ((sortKeys m).map fun p => jsonStr p.1 ++ ": " ++ jsonStr p.2) ++
    "\x7d"

/-- JSON rendering of an alternative-spelling mini-version. -/
def jsonAltEntry (a : AltEntry) : String :=
  "\x7b" ++
    joinSep ", "
      ((match a.accented with
        | none => [] | some ac => [jsonStr "accented" ++ ": " ++ jsonStr ac]) ++
       [jsonStr "ladino" ++ ": " ++ jsonStr a.ladino]) ++
  "\x7d"

/-- JSON rendering of a translations mapping with sorted keys. -/
def jsonTranslations (tr : List (String × TransValue)) : Except PyErr String :=
  match mapE (fun p =>
      match jsonTransValue p.2 with
      | .error e => .error e
      | .ok v => .ok (jsonStr p.1 ++ ": " ++ v)) (sortKeys tr) with
  | .error e => .error e
  | .ok parts => .ok ("\x7b" ++ joinSep ", " parts ++ "\x7d")

/-- JSON rendering of a processed entry, `json.dumps(x, sort_keys=True)`
with the default separators: present fields in ascending key order. -/
def jsonDumpsEntry (e : Entry) : Except PyErr String :=
  match (match e.translations with
         | none => Except.ok Option.none
         | some tr =>
           match jsonTranslations tr with
           | .error er => .error er
           | .ok t => .ok (some t)) with
  | .error er => .error er
  | .ok trjson? =>
    .ok ("\x7b" ++
      joinSep ", "
        ((match e.accented with
          | none => [] | some a => [jsonStr "accented" ++ ": " ++ jsonStr a]) ++
         (match e.altSpelling with
          | none => []
          | some alts => [jsonStr "alternative-spelling" ++ ": " ++
              "[" ++ joinSep ", " (alts.map jsonAltEntry) ++ "]"]) ++
         (match e.comments with
          | none => []
          | some cs => [jsonStr "comments" ++ ": " ++
              "[" ++ joinSep ", " (cs.map jsonStr) ++ "]"]) ++
         (match e.examples with
          | none => []
          | some es => [jsonStr "examples" ++ ": " ++
              "[" ++ joinSep ", " (es.map jsonExample) ++ "]"]) ++
         (match e.gender with
          | none => [] | some g => [jsonStr "gender" ++ ": " ++ jsonStr g]) ++
         [jsonStr "ladino" ++ ": " ++ jsonStr e.ladino] ++
         (match e.number with
          | none => [] | some n => [jsonStr "number" ++ ": " ++ jsonStr n]) ++
         [jsonStr "source" ++ ": " ++ jsonStr e.source] ++
         (match trjson? with
          | none => [] | some t => [jsonStr "translations" ++ ": " ++ t])) ++
      "\x7d")

/-- The sort key of the foreign-language pages lists
(`_add_translated_words` line 342): `len(json.dumps(x, sort_keys=True))`. -/
def jsonLenKey (e : Entry) : Except PyErr Nat :=
  match jsonDumpsEntry e with
  | .error er => .error er
  | .ok s => .ok s.length

/-- The sort key of the Ladino pages lists (`_add_ladino_word` line 320):
`(x['ladino'], x['translations']['english'][0])`; raises `KeyError` when
`translations` or `english` is absent, `IndexError` when the english value
is empty, `TypeError` when it is not subscriptable. -/
def ladinoPageKey (x : Entry) : Except PyErr (String × String) :=
  match x.translations with
  | none => .error (.keyErr "translations")
  | some tr =>
    match alfind tr "english" with
    | none => .error (.keyErr "english")
    | some (.list []) => .error .idxErr
    | some (.list (a :: _)) => .ok (x.ladino, a)
    | some (.str s) =>
      match s.data with
      | [] => .error .idxErr
      | c :: _ => .ok (x.ladino, String.mk [c])
    | some (.other cls _) => .error (.typeErr cls)

/-- Python comparison of `(str, str)` tuples: lexicographic. -/
def pairLe (a b : String × String) : Prop :=
  pylts a.1 b.1 ∨ (a.1 = b.1 ∧ pyles a.2 b.2)

instance : DecidableRel pairLe := fun a b =>
  inferInstanceAs (Decidable (pylts a.1 b.1 ∨ (a.1 = b.1 ∧ pyles a.2 b.2)))

/-- Python's `list.sort(key=...)`: compute the key of every element (in
list order, so a failing key raises even for a singleton list), then sort
stably by key. -/
def sortByKeyE {κ : Type} (key : Entry → Except PyErr κ) (le : κ → κ → Prop)
    [DecidableRel le] (l : List Entry) : Except PyErr (List Entry) :=
  match mapE (fun x =>
      match key x with
      | .error e => .error e
      | .ok k => .ok (x, k)) l with
  | .error e => .error e
  | .ok keyed =>
    .ok ((List.insertionSort (fun a b => le a.2 b.2) keyed).map Prod.fst)

/-- The output state of `collect_data`: the translation index split by the
two value shapes the code stores under `dictionary[language]` (for
`'ladino'` a word maps to a per-language dict of translation lists, for a
foreign language a word maps to the list of Ladino words translating to
it), the pages groupings split the same way, and the per-language word and
example counters. -/
structure CIndex where
  dictLadino : List (String × List (String × List String))
  dictForeign : List (String × List (String × List String))
  pagesLadino : List (String × List Entry)
  pagesForeign : List (String × List (String × List Entry))
  countWords : List (String × Nat)
  countExamples : List (String × Nat)
  deriving DecidableEq, Repr

/-- The initial state built by `collect_data` lines 347-358: empty maps and
zero counters for `'ladino'` and every known language. -/
def emptyCIndex : CIndex where
  dictLadino := []
  dictForeign := pylanguages.map fun l => (l, [])
  pagesLadino := []
  pagesForeign := pylanguages.map fun l => (l, [])
  countWords := ("ladino" :: pylanguages).map fun l => (l, 0)
  countExamples := ("ladino" :: pylanguages).map fun l => (l, 0)

/-- `count[...][k] += n` (`KeyError` when the key is missing). -/
def bumpCountBy (m : List (String × Nat)) (k : String) (n : Nat) :
    Except PyErr (List (String × Nat)) :=
  match alfind m k with
  | none => .error (.keyErr k)
  | some c => .ok (alinsert m k (c + n))

/-- Embeds `generate._add_word` (lines 295-299) on the `'ladino'` half of
the index: extend the translation list stored under
`d[source_word][target_language]` (created empty when absent) with the
iterated target words, then deduplicate and sort it. -/
def _add_word (d : List (String × List (String × List String)))
    (source_word target_language : String) (target_words : TransValue) :
    Except PyErr (List (String × List (String × List String))) :=
  match alfind d source_word with
  | none => .error (.keyErr source_word)
  | some inner =>
    match iterVal target_words with
    | .error e => .error e
    | .ok items =>
      .ok (alinsert d source_word
        (alinsert inner target_language
          (pySortedSet ((alfind inner target_language).getD [] ++ items))))

/-- Embeds `generate._add_ladino_word` (lines 301-323): register the
lowercased headword under `'ladino'`, union in every translation target,
record the original-case form under the `'ladino'` pseudo-target and the
accented form (when truthy) under `'accented'`, and append the entry to the
headword's pages list, re-sorting it by
`(x['ladino'], x['translations']['english'][0])`. -/
def _add_ladino_word (original_word : String) (accented_word : Option String)
    (st : CIndex) (entry : Entry) : Except PyErr CIndex :=
  let word := pyLower original_word
  match bumpCountBy st.countWords "ladino" 1 with
  | .error e => .error e
  | .ok cw =>
    match bumpCountBy st.countExamples "ladino" (countLadinoExamples entry) with
    | .error e => .error e
    | .ok ce =>
      let d0 :=
        if (alfind st.dictLadino word).isSome then st.dictLadino
        else alinsert st.dictLadino word []
      match entry.translations with
      | none => .error (.keyErr "translations")
      | some tr =>
        match foldE (fun dd p => _add_word dd word p.1 p.2) d0 tr with
        | .error e => .error e
        | .ok d1 =>
          match _add_word d1 word "ladino" (.list [original_word]) with
          | .error e => .error e
          | .ok d2 =>
            match sortByKeyE ladinoPageKey pairLe
                ((alfind st.pagesLadino word).getD [] ++ [entry]) with
            | .error e => .error e
            | .ok sortedPages =>
              match (match accented_word with
                     | some aw =>
                       if aw ≠ "" then _add_word d2 word "accented" (.list [aw])
                       else .ok d2
                     | none => .ok d2) with
              | .error e => .error e
              | .ok d3 =>
                .ok { st with
                        dictLadino := d3,
                        pagesLadino := alinsert st.pagesLadino word sortedPages,
                        countWords := cw, countExamples := ce }

/-- The body of the `for word in translations` loop of
`generate._add_translated_words` (lines 331-342): under the foreign
language, map the lowercased target word to the deduplicated sorted list of
Ladino headwords translating to it, bump the word counter, and append the
entry to the target word's pages list, re-sorting it by serialized size. -/
def addForeignWord (source_language : String) (st : CIndex) (entry : Entry)
    (w0 : String) : Except PyErr CIndex :=
  let word := pyLower w0
  match alfind st.dictForeign source_language with
  | none => .error (.keyErr source_language)
  | some inner =>
    let inner' := alinsert inner word
      (pySortedSet ((alfind inner word).getD [] ++ [entry.ladino]))
    match bumpCountBy st.countWords source_language 1 with
    | .error e => .error e
    | .ok cw =>
      match alfind st.pagesForeign source_language with
      | none => .error (.keyErr source_language)
      | some pinner =>
        match sortByKeyE jsonLenKey (fun a b => a ≤ b)
            ((alfind pinner word).getD [] ++ [entry]) with
        | .error e => .error e
        | .ok sorted =>
          .ok { st with
                  dictForeign := alinsert st.dictForeign source_language inner',
                  countWords := cw,
                  pagesForeign := alinsert st.pagesForeign source_language
                    (alinsert pinner word sorted) }

/-- Embeds `generate._add_translated_words` (lines 325-342): a missing
`translations` key is a `KeyError`; an absent language key means nothing to
do. -/
def _add_translated_words (source_language : String) (st : CIndex)
    (entry : Entry) : Except PyErr CIndex :=
  match entry.translations with
  | none => .error (.keyErr "translations")
  | some tr =>
    match alfind tr source_language with
    | none => .ok st
    | some tv =>
      match iterVal tv with
      | .error e => .error e
      | .ok ws => foldE (fun s w0 => addForeignWord source_language s entry w0) st ws

/-- The per-entry body of the `collect_data` loop (lines 360-368): register
the headword, every alternative spelling, and the reverse mappings for
every known language. -/
def processEntry (st : CIndex) (entry : Entry) : Except PyErr CIndex :=
  match _add_ladino_word entry.ladino entry.accented st entry with
  | .error e => .error e
  | .ok st1 =>
    match (match entry.altSpelling with
           | none => Except.ok st1
           | some alts =>
             foldE (fun s (alt : AltEntry) => _add_ladino_word alt.ladino alt.accented s entry)
               st1 alts) with
    | .error e => .error e
    | .ok st2 => foldE (fun s lang => _add_translated_words lang s entry) st2 pylanguages

/-- Embeds `generate.collect_data` (lines 345-370) over the loader's flat
version list. -/
def collect_data (dictionary_source : List Entry) : Except PyErr CIndex :=
  foldE processEntry emptyCIndex dictionary_source

/-! ## Generic lemmas about the embedding's containers -/

theorem string_ext {a b : String} (h : a.data = b.data) : a = b := by
  cases a; cases b; simp_all

theorem alfind_alinsert_self {α : Type} (m : List (String × α)) (k : String) (v : α) :
    alfind (alinsert m k v) k = some v := by
  induction m with
  | nil => simp [alfind, alinsert]
  | cons p rest ih =>
    by_cases h : p.1 = k <;> simp [alfind, alinsert, h, ih]

theorem alfind_alinsert_ne {α : Type} (m : List (String × α)) (k k' : String) (v : α)
    (h : k' ≠ k) : alfind (alinsert m k v) k' = alfind m k' := by
  have h' : ¬ k = k' := fun hh => h hh.symm
  induction m with
  | nil => simp [alfind, alinsert, h']
  | cons p rest ih =>
    by_cases hp : p.1 = k
    · simp [alfind, alinsert, hp, h']
    · simp [alfind, alinsert, hp, ih]

theorem alfind_map_nil {α : Type} (ls : List String) (w : String)
    (m : List α) (h : alfind (ls.map fun l => (l, ([] : List α))) w = some m) :
    m = [] := by
  induction ls with
  | nil => simp [alfind] at h
  | cons x rest ih =>
    simp only [List.map, alfind] at h
    split at h
    · cases h; rfl
    · exact ih h

theorem foldE_ok_inv {σ α : Type} (f : σ → α → Except PyErr σ) (P : σ → Prop)
    (hstep : ∀ s a s', P s → f s a = .ok s' → P s') :
    ∀ l s s', P s → foldE f s l = .ok s' → P s' := by
  intro l
  induction l with
  | nil => intro s s' hp h; cases h; exact hp
  | cons a rest ih =>
    intro s s' hp h
    simp only [foldE] at h
    split at h
    · cases h
    · next t ht => exact ih _ _ (hstep s a t hp ht) h

theorem foldE_ok_elem {σ α : Type} (f : σ → α → Except PyErr σ) :
    ∀ l s s', foldE f s l = .ok s' → ∀ a ∈ l, ∃ t t', f t a = .ok t' := by
  intro l
  induction l with
  | nil => intro s s' _ a ha; cases ha
  | cons b rest ih =>
    intro s s' h a ha
    simp only [foldE] at h
    split at h
    · cases h
    · next t ht =>
      rcases List.mem_cons.mp ha with rfl | ha
      · exact ⟨s, t, ht⟩
      · exact ih _ _ h a ha

theorem foldE_ok_post {σ α : Type} (f : σ → α → Except PyErr σ) (P : α → σ → Prop)
    (hnew : ∀ s a s', f s a = .ok s' → P a s')
    (hmono : ∀ b s a s', P b s → f s a = .ok s' → P b s') :
    ∀ l s s', foldE f s l = .ok s' → ∀ a ∈ l, P a s' := by
  intro l
  induction l with
  | nil => intro s s' _ a ha; cases ha
  | cons b rest ih =>
    intro s s' h a ha
    simp only [foldE] at h
    split at h
    · cases h
    · next t ht =>
      rcases List.mem_cons.mp ha with rfl | ha
      · exact foldE_ok_inv f (P a) (fun s₁ a₁ s₁' hp h₁ => hmono a s₁ a₁ s₁' hp h₁)
          rest t s' (hnew s a t ht) h
      · exact ih _ _ h a ha

theorem mapE_ok_mem {α β : Type} (f : α → Except PyErr β) :
    ∀ l l', mapE f l = .ok l' → ∀ a ∈ l, ∃ b, f a = .ok b := by
  intro l
  induction l with
  | nil => intro l' _ a ha; cases ha
  | cons x rest ih =>
    intro l' h a ha
    simp only [mapE] at h
    split at h
    · cases h
    · next b hb =>
      split at h
      · cases h
      · next bs hbs =>
        rcases List.mem_cons.mp ha with rfl | ha
        · exact ⟨b, hb⟩
        · exact ih _ hbs a ha

/-- For the key-pairing map used by `sortByKeyE`: the computed pair list
projects back to the input and records each element's key. -/
theorem mapE_pairKey {κ : Type} (key : Entry → Except PyErr κ) :
    ∀ l keyed,
      mapE (fun x =>
        match key x with
        | .error e => .error e
        | .ok k => .ok (x, k)) l = .ok keyed →
      keyed.map Prod.fst = l ∧ ∀ p ∈ keyed, key p.1 = .ok p.2 := by
  intro l
  induction l with
  | nil =>
    intro keyed h
    cases h
    exact ⟨rfl, by intro p hp; cases hp⟩
  | cons x rest ih =>
    intro keyed h
    simp only [mapE] at h
    cases hk : key x with
    | error e => rw [hk] at h; simp at h
    | ok k =>
      rw [hk] at h
      cases hrest : mapE (fun x =>
          match key x with
          | .error e => .error e
          | .ok k => .ok (x, k)) rest with
      | error e => rw [hrest] at h; simp at h
      | ok bs =>
        rw [hrest] at h
        simp only [Except.ok.injEq] at h
        obtain ⟨ih1, ih2⟩ := ih bs hrest
        subst h
        refine ⟨by simp [ih1], ?_⟩
        intro p hp
        rcases List.mem_cons.mp hp with rfl | hp
        · exact hk
        · exact ih2 p hp

theorem sortE_mem {κ : Type} (key : Entry → Except PyErr κ) (le : κ → κ → Prop)
    [DecidableRel le] (l l' : List Entry) (h : sortByKeyE key le l = .ok l') :
    ∀ x, x ∈ l' ↔ x ∈ l := by
  unfold sortByKeyE at h
  split at h
  · cases h
  · next keyed hk =>
    cases h
    obtain ⟨h1, _⟩ := mapE_pairKey key l keyed hk
    intro x
    rw [← h1]
    constructor
    · intro hx
      rcases List.mem_map.mp hx with ⟨p, hp, he⟩
      exact List.mem_map.mpr ⟨p, (List.perm_insertionSort _ keyed).mem_iff.mp hp, he⟩
    · intro hx
      rcases List.mem_map.mp hx with ⟨p, hp, he⟩
      exact List.mem_map.mpr ⟨p, (List.perm_insertionSort _ keyed).mem_iff.mpr hp, he⟩

/-- Both elements have computable keys and the keys are ordered: the
relation in which `sortByKeyE` leaves its output. -/
def keyedLe {κ : Type} (key : Entry → Except PyErr κ) (le : κ → κ → Prop)
    (a b : Entry) : Prop :=
  ∃ ka kb, key a = .ok ka ∧ key b = .ok kb ∧ le ka kb

theorem sortE_sorted {κ : Type} (key : Entry → Except PyErr κ) (le : κ → κ → Prop)
    [DecidableRel le]
    (htot : ∀ a b, le a b ∨ le b a) (htr : ∀ a b c, le a b → le b c → le a c)
    (l l' : List Entry) (h : sortByKeyE key le l = .ok l') :
    List.Pairwise (keyedLe key le) l' := by
  unfold sortByKeyE at h
  split at h
  · cases h
  · next keyed hk =>
    cases h
    obtain ⟨_, h2⟩ := mapE_pairKey key l keyed hk
    haveI : IsTotal (Entry × κ) (fun a b => le a.2 b.2) := ⟨fun a b => htot a.2 b.2⟩
    haveI : IsTrans (Entry × κ) (fun a b => le a.2 b.2) :=
      ⟨fun a b c => htr a.2 b.2 c.2⟩
    have hs := List.sorted_insertionSort (fun a b : Entry × κ => le a.2 b.2) keyed
    have hmem : ∀ p ∈ List.insertionSort (fun a b : Entry × κ => le a.2 b.2) keyed,
        key p.1 = .ok p.2 := by
      intro p hp
      exact h2 p ((List.perm_insertionSort _ keyed).mem_iff.mp hp)
    refine List.pairwise_map.mpr (List.Pairwise.imp_of_mem ?_ hs)
    intro a b ha hb hle
    exact ⟨a.2, b.2, hmem a ha, hmem b hb, hle⟩

theorem pyles_total : ∀ a b : String, pyles a b ∨ pyles b a := fun a b =>
  le_total a.data b.data

theorem pyles_trans : ∀ a b c : String, pyles a b → pyles b c → pyles a c :=
  fun _ _ _ h1 h2 => le_trans h1 h2

theorem pairLe_total : ∀ a b : String × String, pairLe a b ∨ pairLe b a := by
  intro a b
  rcases lt_trichotomy a.1.data b.1.data with h | h | h
  · exact Or.inl (Or.inl h)
  · rcases le_total a.2.data b.2.data with h2 | h2
    · exact Or.inl (Or.inr ⟨string_ext h, h2⟩)
    · exact Or.inr (Or.inr ⟨string_ext h.symm, h2⟩)
  · exact Or.inr (Or.inl h)

theorem pairLe_trans : ∀ a b c : String × String,
    pairLe a b → pairLe b c → pairLe a c := by
  intro a b c h1 h2
  rcases h1 with h1 | ⟨h1e, h1le⟩
  · rcases h2 with h2 | ⟨h2e, _⟩
    · exact Or.inl (lt_trans h1 h2)
    · exact Or.inl (h2e ▸ h1)
  · rcases h2 with h2 | ⟨h2e, h2le⟩
    · exact Or.inl (h1e ▸ h2)
    · exact Or.inr ⟨h1e.trans h2e, le_trans h1le h2le⟩

theorem pySortedSet_pairwise (l : List String) :
    List.Pairwise pylts (pySortedSet l) := by
  haveI : IsTotal String pyles := ⟨pyles_total⟩
  haveI : IsTrans String pyles := ⟨pyles_trans⟩
  have hs : List.Pairwise pyles (pySortedSet l) :=
    List.sorted_insertionSort pyles l.dedup
  have hn : List.Pairwise (fun a b : String => a ≠ b) (pySortedSet l) :=
    (List.Perm.nodup_iff (List.perm_insertionSort pyles l.dedup)).mpr
      (List.nodup_dedup l)
  exact (hs.and hn).imp fun hab =>
    lt_of_le_of_ne hab.1 fun hd => hab.2 (string_ext hd)

/-! ## Concrete scenarios -/

/-- A configuration admitting the concrete single-record scenario of the
spec (grammar vocabulary containing `noun`, origin vocabulary containing
`hebrew`, the usual genders and numbers). -/
def c1Config : Config where
  gramatika := ["noun", "verb", "adjective"]
  origenes := ["hebrew", "turkish"]
  kategorias := ["komida"]
  gender := ["masculine", "feminine"]
  numero := ["singular", "plural"]
  tiempos := ["present indicative", "pasado simple"]
  pronombres := ["yo", "tu", "el", "mozotros", "vozotros", "eyos"]

/-- The spec's concrete record: `{grammar: noun, origen: hebrew, versions:
[{ladino: "Klaro", gender: masculine, number: singular, translations:
{english: "clear"}}], examples: [{ladino: "Es klaro.", english: "It's
clear."}]}`. -/
def c1Record : RawRecord where
  grammar := some "noun"
  origen := some "hebrew"
  categories := none
  versions := some [{ ladino := some "Klaro", accented := none,
                      gender := some "masculine", number := some "singular",
                      translations := some [("english", .str "clear")],
                      altSpelling := none }]
  examples := some [.map [("ladino", "Es klaro."), ("english", "It's clear.")]]
  comments := none
  conjugations := none

/-- C1: loading the single `Klaro` record and building the cross-index
yields `dictionary['ladino']['klaro']['english'] == ['clear']`,
`dictionary['english']['clear'] == ['Klaro']`, and a global example list
with exactly one entry, tagged with the lowercased headword `'klaro'` and
the record's filename. -/
theorem c1_minimal_record_cross_index :
    ∃ ws aes st,
      load_dictionary c1Config [("klaro.yaml", c1Record)] = .ok (ws, aes) ∧
      collect_data ws = .ok st ∧
      ((alfind st.dictLadino "klaro").bind fun m => alfind m "english") = some ["clear"] ∧
      ((alfind st.dictForeign "english").bind fun m => alfind m "clear") = some ["Klaro"] ∧
      aes.map (fun a => (a.word, a.source)) = [("klaro", "klaro.yaml")] := by
  refine ⟨_, _, _, rfl, rfl, ?_, ?_, ?_⟩ <;> decide

/-- C3: translation coercion returns a list value unchanged (hence is
idempotent), turns the empty string into the empty list and a non-empty
string into a singleton, and raises the `LadinoError` naming the offending
type, the language, the repr of the raw translations mapping and the
filename for a value of any other type. -/
theorem c3_make_it_list_coercion (tr : List (String × TransValue)) (lang fn : String) :
    (∀ l, alfind tr lang = some (.list l) → make_it_list tr lang fn = .ok l) ∧
    (alfind tr lang = some (.str "") → make_it_list tr lang fn = .ok []) ∧
    (∀ s, s ≠ "" → alfind tr lang = some (.str s) → make_it_list tr lang fn = .ok [s]) ∧
    (∀ cls rep, alfind tr lang = some (.other cls rep) →
      make_it_list tr lang fn = .error (.ladino ("bad type " ++ cls ++ " for " ++
        lang ++ " in " ++ pyReprTranslations tr ++ " in '" ++ fn ++ "'"))) ∧
    (∀ l, make_it_list tr lang fn = .ok l →
      make_it_list (alinsert tr lang (.list l)) lang fn = .ok l) := by
  refine ⟨?_, ?_, ?_, ?_, ?_⟩
  · intro l h; unfold make_it_list; rw [h]
  · intro h; unfold make_it_list; rw [h]; simp
  · intro s hs h; unfold make_it_list; rw [h]; simp [hs]
  · intro cls rep h; unfold make_it_list; rw [h]
  · intro l _; unfold make_it_list; rw [alfind_alinsert_self]

/-- Witness for C3 at a concrete mapping. -/
theorem c3_witness :
    make_it_list [("english", .str "clear")] "english" "f.yaml" = .ok ["clear"] :=
  (c3_make_it_list_coercion [("english", .str "clear")] "english" "f.yaml").2.2.1
    "clear" (by decide) (by decide)

/-- Splitting a loader fold at a list boundary. -/
theorem foldE_append {σ α : Type} (f : σ → α → Except PyErr σ)
    (l1 l2 : List α) (s : σ) :
    foldE f s (l1 ++ l2) =
      match foldE f s l1 with
      | .error e => .error e
      | .ok s' => foldE f s' l2 := by
  induction l1 generalizing s with
  | nil => simp [foldE]
  | cons a rest ih =>
    simp only [List.cons_append, foldE]
    cases f s a <;> simp [ih]

/-- A record whose `grammar` field is missing makes `processFile` fail with
the documented message. -/
theorem processFile_grammar_missing (config : Config) (fn : String)
    (data : RawRecord) (hg : data.grammar = none) :
    processFile config fn data =
      .error (.ladino ("The 'grammar' field is missing from file '" ++ fn ++ "'")) := by
  simp [processFile, recordChecks, check_grammar, hg]

/-- C5: when the files processed so far loaded successfully and the next
file lacks the `grammar` field, the loader raises the typed error with
exactly the documented message, regardless of any later files: no
Dictionary value is returned and the partial accumulation is discarded. -/
theorem c5_missing_grammar_aborts (config : Config)
    (pre : List (String × RawRecord)) (acc : List Entry × List ExampleRec)
    (fn : String) (data : RawRecord) (post : List (String × RawRecord))
    (hpre : load_dictionary config pre = .ok acc) (hg : data.grammar = none) :
    load_dictionary config (pre ++ (fn, data) :: post) =
      .error (.ladino ("The 'grammar' field is missing from file '" ++ fn ++ "'")) := by
  unfold load_dictionary at hpre ⊢
  rw [foldE_append, hpre]
  simp [foldE, processFile_grammar_missing config fn data hg]

/-- Witness for C5: a one-file directory whose record has no grammar. -/
theorem c5_witness :
    load_dictionary c1Config ([] ++ ("empty.yaml",
        { grammar := none, origen := some "hebrew", categories := none,
          versions := none, examples := none, comments := none,
          conjugations := none }) :: []) =
      .error (.ladino "The 'grammar' field is missing from file 'empty.yaml'") :=
  c5_missing_grammar_aborts c1Config [] ([], []) "empty.yaml" _ [] rfl rfl

/-- A configuration and record exhibiting the validation order of
`generate.load_dictionary`: grammar is valid (`verb`), `origen` is missing
and `conjugations` is missing, so the claimed order (conjugation
consistency before origen) predicts the conjugations error while the code
checks origen first. -/
def c2Record : RawRecord where
  grammar := some "verb"
  origen := none
  categories := none
  versions := none
  examples := none
  comments := none
  conjugations := none

/-- C2 counterexample: on `c2Record` the loader raises the missing-origen
error, not the verb/conjugations error that the claimed check order
(grammar, then conjugation consistency, then noun, then origen, ...)
requires as the first failing check. -/
theorem c2_counterexample :
    load_dictionary c1Config [("x.yaml", c2Record)] =
      .error (.ladino "The 'origen' field is missing from file 'x.yaml'") ∧
    PyErr.ladino "The 'origen' field is missing from file 'x.yaml'" ≠
      PyErr.ladino "Grammar is 'verb', but there is NO 'conjugations' field in 'x.yaml'" := by
  constructor
  · rfl
  · decide

/-- A configuration whose tense vocabulary (`tiempos`) does not contain
`'present indicative'`. -/
def c9Config : Config where
  gramatika := ["verb"]
  origenes := ["hebrew"]
  kategorias := []
  gender := []
  numero := []
  tiempos := ["imperfekto"]
  pronombres := []

/-- A verb record conjugated under the tense `'present indicative'`, which
is not in `c9Config.tiempos` but is in the loader's hard-coded list. -/
def c9Record : RawRecord where
  grammar := some "verb"
  origen := some "hebrew"
  categories := none
  versions := some [{ ladino := some "komer", accented := none, gender := none,
                      number := none, translations := none, altSpelling := none }]
  examples := some []
  comments := none
  conjugations := some [("present indicative",
    [("yo", { ladino := some "komo", accented := none, gender := none,
              number := none, translations := none, altSpelling := none })])]

/-- C9 counterexample: the tense `'present indicative'` is not in the
configured tense vocabulary `config['tiempos']`, yet the loader accepts the
record without raising any error, because `generate.load_dictionary`
validates tenses against a hard-coded list instead of the configuration. -/
theorem c9_counterexample :
    "present indicative" ∉ c9Config.tiempos ∧
    ∃ out, load_dictionary c9Config [("komer.yaml", c9Record)] = .ok out :=
  ⟨by decide, ⟨_, rfl⟩⟩

/-- C9 amended: the conjugation expansion validates each tense against the
hard-coded list `['present indicative', 'pasado simple']` and each pronoun
against the hard-coded `['yo', 'tu', 'el', 'mozotros', 'vozotros',
'eyos']`; an unrecognized tense raises the error naming that exact tense
and the filename, and an unrecognized pronoun under a recognized tense
raises the error naming the pronoun, the tense and the filename. -/
theorem c9_hardcoded_tense_pronoun :
    (∀ fn t c rest ws, t ∉ tiempos_hardcoded →
      processConjugations fn ws ((t, c) :: rest) =
        .error (.ladino ("Verb conjugation time '" ++ t ++
          "' is no recogrnized in '" ++ fn ++ "'"))) ∧
    (∀ fn t p v restc rest ws, t ∈ tiempos_hardcoded → p ∉ pronombres_hardcoded →
      processConjugations fn ws ((t, (p, v) :: restc) :: rest) =
        .error (.ladino ("Incorrect pronoun '" ++ p ++ "' in verb time '" ++ t ++
          "' in '" ++ fn ++ "'"))) := by
  constructor
  · intro fn t c rest ws ht
    simp [processConjugations, ht]
  · intro fn t p v restc rest ws ht hp
    simp [processConjugations, processConjPronouns, ht, hp]

/-- Witness for C9's amended theorem at concrete tenses and pronouns. -/
theorem c9_amended_witness :
    processConjugations "f.yaml" [] [("futuro", [])] =
      .error (.ladino "Verb conjugation time 'futuro' is no recogrnized in 'f.yaml'") ∧
    processConjugations "f.yaml" [] [("pasado simple",
        [("vos", { ladino := some "x", accented := none, gender := none,
                   number := none, translations := none, altSpelling := none })])] =
      .error (.ladino "Incorrect pronoun 'vos' in verb time 'pasado simple' in 'f.yaml'") :=
  ⟨c9_hardcoded_tense_pronoun.1 "f.yaml" "futuro" [] [] [] (by decide),
   c9_hardcoded_tense_pronoun.2 "f.yaml" "pasado simple" "vos" _ [] [] [] (by decide) (by decide)⟩

/-! ## The validation order of the loader (C2) -/

/-- The error projection of an `Except` computation: the raised exception,
or `none` on success. -/
def exceptErr {β : Type} : Except PyErr β → Option PyErr
  | .error e => some e
  | .ok _ => none

/-- Modelled from the spec: the first validation failure of one noun
version (gender presence, gender vocabulary, number presence, number
vocabulary, with the documented messages). -/
def nounVersionErr (config : Config) (filename : String) (version : RawVersion) :
    Option PyErr :=
  match version.gender with
  | none => some (.ladino ("The 'gender' field is None in '" ++ filename ++
      "' version " ++ pyReprRawVersion version))
  | some gender =>
    if gender ∉ config.gender then
      some (.ladino ("Invalid value '" ++ gender ++ "' in 'gender' field in '" ++
        filename ++ "' version " ++ pyReprRawVersion version))
    else
      match version.number with
      | none => some (.ladino ("The 'number' field is None in '" ++ filename ++
          "' version " ++ pyReprRawVersion version))
      | some number =>
        if number ∉ config.numero then
          some (.ladino ("The 'number' field is '" ++ number ++ "' in '" ++
            filename ++ "' version " ++ pyReprRawVersion version))
        else none

/-- Modelled from the spec (amended order): the first failing check of the
per-record validation of the loader, in the order grammar
presence/vocabulary, origen presence/vocabulary, category vocabulary
membership, versions-presence, verb/conjugations co-presence consistency,
per-version noun gender/number (when grammar is `noun`), examples-presence;
`none` when every check passes. -/
def specFirstError (config : Config) (data : RawRecord) (filename : String) :
    Option PyErr :=
  match data.grammar with
  | none => some (.ladino ("The 'grammar' field is missing from file '" ++
      filename ++ "'"))
  | some grammar =>
    if grammar ∉ config.gramatika then
      some (.ladino ("Invalid grammar '" ++ grammar ++ "' in file '" ++ filename ++ "'"))
    else
      match data.origen with
      | none => some (.ladino ("The 'origen' field is missing from file '" ++
          filename ++ "'"))
      | some origen =>
        if origen ∉ config.origenes then
          some (.ladino ("Invalid origen '" ++ origen ++ "' in file '" ++
            filename ++ "'"))
        else
          match (data.categories.getD []).find?
              (fun c => !decide (c ∈ config.kategorias)) with
          | some c => some (.ladino ("Invalid category '" ++ c ++ "' in file '" ++
              filename ++ "'"))
          | none =>
            match data.versions with
            | none => some (.ladino ("The 'versions' field is missing from file '" ++
                filename ++ "'"))
            | some versions =>
              if grammar = "verb" ∧ data.conjugations = none then
                some (.ladino ("Grammar is 'verb', but there is NO 'conjugations' field in '" ++
                  filename ++ "'"))
              else if grammar ≠ "verb" ∧ data.conjugations ≠ none then
                some (.ladino ("Grammar is NOT a 'verb', but there are conjugations in '" ++
                  filename ++ "'"))
              else
                match (if grammar = "noun" then
                    versions.findSome? (nounVersionErr config filename)
                  else none) with
                | some e => some e
                | none =>
                  match data.examples with
                  | none => some (.ladino ("The 'examples' field is missing in '" ++
                      filename ++ "'"))
                  | some _ => none

theorem exceptErr_check_categories (config : Config) (data : RawRecord)
    (filename : String) :
    exceptErr (check_categories config data filename) =
      ((data.categories.getD []).find? (fun c => !decide (c ∈ config.kategorias))).map
        (fun c => .ladino ("Invalid category '" ++ c ++ "' in file '" ++
          filename ++ "'")) := by
  unfold check_categories
  cases data.categories with
  | none => simp [exceptErr]
  | some cats =>
    simp only [Option.getD]
    induction cats with
    | nil => simp [foldE, exceptErr]
    | cons c rest ih =>
      by_cases hc : c ∈ config.kategorias
      · simpa [foldE, List.find?, hc] using ih
      · simp [foldE, List.find?, hc, exceptErr]

theorem exceptErr_checkNounVersions (config : Config) (versions : List RawVersion)
    (filename : String) :
    exceptErr (checkNounVersions config versions filename) =
      versions.findSome? (nounVersionErr config filename) := by
  induction versions with
  | nil => simp [checkNounVersions, foldE, exceptErr]
  | cons v rest ih =>
    unfold checkNounVersions at ih ⊢
    simp only [foldE, List.findSome?]
    cases hg : v.gender with
    | none => simp [nounVersionErr, hg, exceptErr]
    | some gender =>
      by_cases hgv : gender ∈ config.gender
      · cases hn : v.number with
        | none => simp [nounVersionErr, hg, hgv, hn, exceptErr]
        | some number =>
          by_cases hnv : number ∈ config.numero
          · simpa [nounVersionErr, hg, hgv, hn, hnv] using ih
          · simp [nounVersionErr, hg, hgv, hn, hnv, exceptErr]
      · simp [nounVersionErr, hg, hgv, exceptErr]

/-- C2 amended: the loader's per-record validation raises exactly the first
failure of the check sequence grammar → origen → categories →
versions-presence → verb/conjugations consistency → noun gender/number →
examples-presence (and succeeds when every check passes). -/
theorem c2_amended_validation_order (config : Config) (data : RawRecord)
    (filename : String) :
    exceptErr (recordChecks config data filename) =
      specFirstError config data filename := by
  unfold recordChecks specFirstError check_grammar check_origen
  cases hg : data.grammar with
  | none => simp [exceptErr]
  | some grammar =>
    by_cases hgv : grammar ∈ config.gramatika
    · cases ho : data.origen with
      | none => simp [hgv, exceptErr]
      | some origen =>
        by_cases hov : origen ∈ config.origenes
        · have hcat := exceptErr_check_categories config data filename
          cases hc : check_categories config data filename with
          | error e =>
            rw [hc] at hcat
            simp only [exceptErr] at hcat
            rcases Option.map_eq_some'.mp hcat.symm with ⟨c, hfind, hmsg⟩
            simp only [hgv, hov, if_neg, exceptErr]
            simp [hfind, hmsg]
          | ok u =>
            rw [hc] at hcat
            simp only [exceptErr] at hcat
            rw [eq_comm, Option.map_eq_none'] at hcat
            simp only [hgv, hov, if_pos, hcat]
            cases hv : data.versions with
            | none => simp [exceptErr]
            | some versions =>
              by_cases h1 : grammar = "verb" ∧ data.conjugations = none
              · simp [hg, h1, exceptErr]
              · by_cases h2 : grammar ≠ "verb" ∧ data.conjugations ≠ none
                · simp [hg, h1, h2, exceptErr]
                · have hnoun := exceptErr_checkNounVersions config versions filename
                  simp only [hg, h1, h2, if_neg, if_false]
                  have hmem : (grammar ∈ (["noun"] : List String)) ↔ grammar = "noun" := by
                    simp
                  by_cases hn : grammar = "noun"
                  · cases hcn : checkNounVersions config versions filename with
                    | error e =>
                      rw [hcn] at hnoun
                      simp only [exceptErr] at hnoun
                      simp [hn, exceptErr, ← hnoun]
                    | ok u =>
                      rw [hcn] at hnoun
                      simp only [exceptErr] at hnoun
                      rw [eq_comm] at hnoun
                      simp only [hn, if_pos, hnoun]
                      cases data.examples <;> simp [exceptErr]
                  · simp only [hmem, hn, if_neg, if_false]
                    cases data.examples <;> simp [exceptErr, hn]
        · simp [hgv, hov, exceptErr]
    · simp [hgv, exceptErr]

/-! ## Success conditions of the per-record validation (C4, C6) -/

theorem check_grammar_ok (config : Config) (data : RawRecord) (fn g : String)
    (h : check_grammar config data fn = .ok g) :
    data.grammar = some g ∧ g ∈ config.gramatika := by
  cases hg : data.grammar with
  | none => simp [check_grammar, hg] at h
  | some g' =>
    by_cases hv : g' ∈ config.gramatika
    · simp [check_grammar, hg, hv] at h
      subst h
      exact ⟨rfl, hv⟩
    · simp [check_grammar, hg, hv] at h

theorem recordChecks_ok (config : Config) (data : RawRecord) (fn : String)
    (g : String) (versions : List RawVersion) (exs : Option (List PyExample))
    (cms : Option (List String))
    (h : recordChecks config data fn = .ok (g, versions, exs, cms)) :
    data.grammar = some g ∧ g ∈ config.gramatika ∧
    data.versions = some versions ∧
    ¬(g = "verb" ∧ data.conjugations = none) ∧
    ¬(g ≠ "verb" ∧ data.conjugations ≠ none) ∧
    ∃ exs0, data.examples = some exs0 ∧ exs = normEmpties (some exs0) ∧
      cms = normEmpties data.comments := by
  unfold recordChecks at h
  split at h
  · cases h
  · next grammar hcg =>
    split at h
    · cases h
    · split at h
      · cases h
      · split at h
        · cases h
        · next versions' hv =>
          split at h
          · cases h
          · next h1 =>
            split at h
            · cases h
            · next h2 =>
              split at h
              · cases h
              · split at h
                · cases h
                · next exs0 hex =>
                  cases h
                  obtain ⟨hg, hgv⟩ := check_grammar_ok config data fn _ hcg
                  exact ⟨hg, hgv, hv, h1, h2, exs0, hex, rfl, rfl⟩

/-- C4: a record accepted by the loader has grammar `verb` exactly when it
has a `conjugations` field, and a violating record is rejected with the
documented exact wording. -/
theorem c4_verb_conjugations_consistency :
    (∀ config fn data out, processFile config fn data = .ok out →
      (data.grammar = some "verb" ↔ data.conjugations ≠ none)) ∧
    (∀ config fn data versions, data.grammar = some "verb" →
      "verb" ∈ config.gramatika → check_origen config data fn = .ok () →
      check_categories config data fn = .ok () → data.versions = some versions →
      data.conjugations = none →
      processFile config fn data = .error (.ladino
        ("Grammar is 'verb', but there is NO 'conjugations' field in '" ++ fn ++ "'"))) ∧
    (∀ config fn data versions g conj, data.grammar = some g →
      g ∈ config.gramatika → g ≠ "verb" → check_origen config data fn = .ok () →
      check_categories config data fn = .ok () → data.versions = some versions →
      data.conjugations = some conj →
      processFile config fn data = .error (.ladino
        ("Grammar is NOT a 'verb', but there are conjugations in '" ++ fn ++ "'"))) := by
  refine ⟨?_, ?_, ?_⟩
  · intro config fn data out h
    unfold processFile at h
    cases hrc : recordChecks config data fn with
    | error e => rw [hrc] at h; simp at h
    | ok q =>
      obtain ⟨g, versions, exs, cms⟩ := q
      obtain ⟨hg, _, _, h1, h2, _⟩ := recordChecks_ok config data fn g versions exs cms hrc
      constructor
      · intro hverb
        rw [hg] at hverb
        cases hverb
        intro hnone
        exact h1 ⟨rfl, hnone⟩
      · intro hconj
        by_cases hgv : g = "verb"
        · rw [hg, hgv]
        · exact absurd ⟨hgv, hconj⟩ h2
  · intro config fn data versions hg hgram ho hc hv hconj
    simp [processFile, recordChecks, check_grammar, hg, hgram, ho, hc, hv, hconj]
  · intro config fn data versions g conj hg hgram hgne ho hc hv hconj
    simp [processFile, recordChecks, check_grammar, hg, hgram, hgne, ho, hc, hv, hconj]

/-- A record with grammar `verb` and no conjugations, used as the concrete
violation for C4. -/
def c4Record : RawRecord where
  grammar := some "verb"
  origen := some "hebrew"
  categories := none
  versions := some []
  examples := some []
  comments := none
  conjugations := none

/-- Witness for C4: the accepted `c1Record` satisfies the iff, and the
violating `c4Record` is rejected with the documented message. -/
theorem c4_witness :
    (c1Record.grammar = some "verb" ↔ c1Record.conjugations ≠ none) ∧
    processFile c1Config "verbo.yaml" c4Record = .error (.ladino
      "Grammar is 'verb', but there is NO 'conjugations' field in 'verbo.yaml'") :=
  ⟨c4_verb_conjugations_consistency.1 c1Config "klaro.yaml" c1Record _ rfl,
   c4_verb_conjugations_consistency.2.1 c1Config "verbo.yaml" c4Record [] rfl
     (by decide) rfl rfl rfl rfl⟩

theorem processVersions_none (fn : String) :
    ∀ l ws aes, processVersions fn none none l = .ok (ws, aes) →
      aes = [] ∧ ∀ e ∈ ws, e.examples = none ∧ e.comments = none := by
  intro l
  induction l with
  | nil =>
    intro ws aes h
    cases h
    exact ⟨rfl, by intro e he; cases he⟩
  | cons v rest ih =>
    intro ws aes h
    cases hlad : v.ladino with
    | none => simp [processVersions, hlad] at h
    | some lad =>
      cases htr : coerceTranslations v.translations fn with
      | error e => simp [processVersions, hlad, htr] at h
      | ok tr =>
        cases hrest : processVersions fn none none rest with
        | error e => simp [processVersions, hlad, htr, hrest] at h
        | ok p =>
          obtain ⟨ws2, aes2⟩ := p
          rw [processVersions, hlad, htr, hrest] at h
          cases h
          obtain ⟨h1, h2⟩ := ih ws2 aes2 hrest
          refine ⟨by simpa using h1, ?_⟩
          intro e he
          rcases List.mem_cons.mp he with rfl | he
          · exact ⟨rfl, rfl⟩
          · exact h2 e he

theorem processConjPronouns_appends (fn t : String) :
    ∀ l ws ws', processConjPronouns fn t ws l = .ok ws' →
      ∃ extra, ws' = ws ++ extra ∧
        ∀ e ∈ extra, e.examples = none ∧ e.comments = none := by
  intro l
  induction l with
  | nil =>
    intro ws ws' h
    cases h
    exact ⟨[], by simp, by intro e he; cases he⟩
  | cons pv rest ih =>
    intro ws ws' h
    unfold processConjPronouns at h
    split at h
    · cases h
    · split at h
      · cases h
      · next lad hlad =>
        split at h
        · cases h
        · next tr htr =>
          obtain ⟨extra, hex, hprop⟩ := ih _ _ h
          refine ⟨_ :: extra, by simpa using hex, ?_⟩
          intro e he
          rcases List.mem_cons.mp he with rfl | he
          · exact ⟨rfl, rfl⟩
          · exact hprop e he

theorem processConjugations_appends (fn : String) :
    ∀ conj ws ws', processConjugations fn ws conj = .ok ws' →
      ∃ extra, ws' = ws ++ extra ∧
        ∀ e ∈ extra, e.examples = none ∧ e.comments = none := by
  intro conj
  induction conj with
  | nil =>
    intro ws ws' h
    cases h
    exact ⟨[], by simp, by intro e he; cases he⟩
  | cons tc rest ih =>
    intro ws ws' h
    unfold processConjugations at h
    split at h
    · cases h
    · split at h
      · cases h
      · next ws1 hws1 =>
        obtain ⟨extra1, he1, hp1⟩ := processConjPronouns_appends fn tc.1 tc.2 ws ws1 hws1
        obtain ⟨extra2, he2, hp2⟩ := ih ws1 ws' h
        refine ⟨extra1 ++ extra2, by rw [he2, he1, List.append_assoc], ?_⟩
        intro e he
        rcases List.mem_append.mp he with he | he
        · exact hp1 e he
        · exact hp2 e he

/-- C6: for a record with a non-empty examples list accepted by the loader,
exactly the first produced Version carries the record's examples and
(normalized) comments, every later Version from the record carries neither,
and every appended global example record is tagged with the lowercased
first headword and the source filename. -/
theorem c6_examples_on_first_version (config : Config) (fn : String)
    (data : RawRecord) (v0 : RawVersion) (vrest : List RawVersion)
    (exs : List PyExample) (ws : List Entry) (aes : List ExampleRec)
    (hv : data.versions = some (v0 :: vrest)) (hex : data.examples = some exs)
    (hne : exs ≠ []) (h : processFile config fn data = .ok (ws, aes)) :
    ∃ lad e0 tl, v0.ladino = some lad ∧ ws = e0 :: tl ∧
      e0.ladino = lad ∧ e0.examples = some exs ∧
      e0.comments = normEmpties data.comments ∧
      (∀ e ∈ tl, e.examples = none ∧ e.comments = none) ∧
      aes = exs.map (fun ex => { ex := ex, word := pyLower lad, source := fn }) := by
  unfold processFile at h
  cases hrc : recordChecks config data fn with
  | error e => rw [hrc] at h; simp at h
  | ok q =>
    obtain ⟨g, versions, exs', cms⟩ := q
    rw [hrc] at h
    simp only [] at h
    obtain ⟨_, _, hvs, _, _, exs0, hex0, hexs', hcms⟩ :=
      recordChecks_ok config data fn g versions exs' cms hrc
    rw [hv] at hvs
    cases hvs
    rw [hex] at hex0
    cases hex0
    have hexs'2 : exs' = some exs := by
      rw [hexs']
      cases exs with
      | nil => exact absurd rfl hne
      | cons a r => rfl
    subst hexs'2
    subst hcms
    cases hpv : processVersions fn (some exs) (normEmpties data.comments)
        (v0 :: vrest) with
    | error e => rw [hpv] at h; simp at h
    | ok p =>
      obtain ⟨ws0, aes0⟩ := p
      rw [hpv] at h
      cases hlad : v0.ladino with
      | none => simp [processVersions, hlad] at hpv
      | some lad =>
        cases htr : coerceTranslations v0.translations fn with
        | error e => simp [processVersions, hlad, htr] at hpv
        | ok tr =>
          cases hrest : processVersions fn none none vrest with
          | error e => simp [processVersions, hlad, htr, hrest] at hpv
          | ok p2 =>
            obtain ⟨ws1, aes2⟩ := p2
            simp only [processVersions, hlad, htr, hrest] at hpv
            cases hpv
            obtain ⟨ha2, hw2⟩ := processVersions_none fn vrest ws1 aes2 hrest
            subst ha2
            cases hconj : data.conjugations with
            | none =>
              rw [hconj] at h
              simp only [] at h
              cases h
              exact ⟨lad, _, ws1, rfl, rfl, rfl, rfl, rfl, hw2, by simp⟩
            | some conj =>
              rw [hconj] at h
              simp only [] at h
              split at h
              · cases h
              · rename_i ws2 hws2
                cases h
                obtain ⟨extra, hextra, hpextra⟩ :=
                  processConjugations_appends fn conj _ _ hws2
                rw [hextra, List.cons_append]
                refine ⟨lad, _, ws1 ++ extra, rfl, rfl, rfl, rfl, rfl, ?_, by simp⟩
                intro e he
                rcases List.mem_append.mp he with he | he
                · exact hw2 e he
                · exact hpextra e he

/-! ## Invariants of the cross-index (C7, C8, C10) -/

/-- Every translation list stored in a two-level index is strictly
ascending (hence deduplicated and sorted). -/
def dictSorted (d : List (String × List (String × List String))) : Prop :=
  ∀ w m, alfind d w = some m → ∀ t tl, alfind m t = some tl →
    List.Pairwise pylts tl

/-- Every Ladino pages list is sorted by the
`(x['ladino'], x['translations']['english'][0])` key. -/
def PagesLadSorted (st : CIndex) : Prop :=
  ∀ w l, alfind st.pagesLadino w = some l →
    List.Pairwise (keyedLe ladinoPageKey pairLe) l

/-- Every foreign-language pages list is sorted by the serialized-size
key. -/
def PagesForSorted (st : CIndex) : Prop :=
  ∀ lang pm, alfind st.pagesForeign lang = some pm →
    ∀ w l, alfind pm w = some l →
      List.Pairwise (keyedLe jsonLenKey (fun a b => a ≤ b)) l

theorem dictSorted_alinsert_empty (d : List (String × List (String × List String)))
    (w : String) (hd : dictSorted d) : dictSorted (alinsert d w []) := by
  intro w' m' hm' t' tl' htl'
  by_cases hw : w' = w
  · subst hw
    rw [alfind_alinsert_self] at hm'
    cases hm'
    simp [alfind] at htl'
  · rw [alfind_alinsert_ne d w w' _ hw] at hm'
    exact hd w' m' hm' t' tl' htl'

theorem add_word_sorted (d : List (String × List (String × List String)))
    (w t : String) (tv : TransValue) (d' : List (String × List (String × List String)))
    (hd : dictSorted d) (h : _add_word d w t tv = .ok d') : dictSorted d' := by
  unfold _add_word at h
  cases hf : alfind d w with
  | none => rw [hf] at h; simp at h
  | some inner =>
    rw [hf] at h
    cases hiv : iterVal tv with
    | error e => rw [hiv] at h; simp at h
    | ok items =>
      rw [hiv] at h
      simp only [] at h
      cases h
      intro w' m' hm' t' tl' htl'
      by_cases hw : w' = w
      · subst hw
        rw [alfind_alinsert_self] at hm'
        cases hm'
        by_cases ht : t' = t
        · subst ht
          rw [alfind_alinsert_self] at htl'
          cases htl'
          exact pySortedSet_pairwise _
        · rw [alfind_alinsert_ne inner t t' _ ht] at htl'
          exact hd w' inner hf t' tl' htl'
      · rw [alfind_alinsert_ne d w w' _ hw] at hm'
        exact hd w' m' hm' t' tl' htl'

theorem sortE_ladino_sorted (l l' : List Entry)
    (h : sortByKeyE ladinoPageKey pairLe l = .ok l') :
    List.Pairwise (keyedLe ladinoPageKey pairLe) l' :=
  sortE_sorted ladinoPageKey pairLe pairLe_total pairLe_trans l l' h

theorem sortE_json_sorted (l l' : List Entry)
    (h : sortByKeyE jsonLenKey (fun a b => a ≤ b) l = .ok l') :
    List.Pairwise (keyedLe jsonLenKey (fun a b => a ≤ b)) l' :=
  sortE_sorted jsonLenKey (fun a b => a ≤ b) (fun a b => Nat.le_total a b)
    (fun _ _ _ h1 h2 => Nat.le_trans h1 h2) l l' h

theorem sortE_key_ok {κ : Type} (key : Entry → Except PyErr κ) (le : κ → κ → Prop)
    [DecidableRel le] (l l' : List Entry) (h : sortByKeyE key le l = .ok l')
    (x : Entry) (hx : x ∈ l) : ∃ k, key x = .ok k := by
  unfold sortByKeyE at h
  cases hm : mapE (fun x =>
      match key x with
      | .error e => .error e
      | .ok k => .ok (x, k)) l with
  | error e => rw [hm] at h; simp at h
  | ok keyed =>
    obtain ⟨p, hp⟩ := mapE_ok_mem _ l keyed hm x hx
    cases hk : key x with
    | error e => rw [hk] at hp; simp at hp
    | ok k => exact ⟨k, rfl⟩

/-- Behaviour of `_add_ladino_word`: the foreign halves are untouched, the
sortedness invariants are preserved, Ladino pages only grow, the processed
entry lands in its lowercased headword's pages list, and success forces the
entry to carry a translations mapping and a computable pages sort key. -/
theorem add_ladino_word_spec (ow : String) (aw : Option String) (st : CIndex)
    (e : Entry) (st' : CIndex) (h : _add_ladino_word ow aw st e = .ok st') :
    st'.dictForeign = st.dictForeign ∧
    st'.pagesForeign = st.pagesForeign ∧
    (dictSorted st.dictLadino → dictSorted st'.dictLadino) ∧
    (PagesLadSorted st → PagesLadSorted st') ∧
    (∀ w x, x ∈ (alfind st.pagesLadino w).getD [] →
      x ∈ (alfind st'.pagesLadino w).getD []) ∧
    e ∈ (alfind st'.pagesLadino (pyLower ow)).getD [] ∧
    (∃ tr, e.translations = some tr) ∧ (∃ k, ladinoPageKey e = .ok k) := by
  simp only [_add_ladino_word] at h
  cases hcw : bumpCountBy st.countWords "ladino" 1 with
  | error er => rw [hcw] at h; simp at h
  | ok cw =>
    rw [hcw] at h
    simp only [] at h
    cases hce : bumpCountBy st.countExamples "ladino" (countLadinoExamples e) with
    | error er => rw [hce] at h; simp at h
    | ok ce =>
      rw [hce] at h
      simp only [] at h
      cases htr : e.translations with
      | none => rw [htr] at h; simp at h
      | some tr =>
        rw [htr] at h
        simp only [] at h
        cases hfold : foldE (fun dd p => _add_word dd (pyLower ow) p.1 p.2)
            (if (alfind st.dictLadino (pyLower ow)).isSome then st.dictLadino
             else alinsert st.dictLadino (pyLower ow) []) tr with
        | error er => rw [hfold] at h; simp at h
        | ok d1 =>
          rw [hfold] at h
          simp only [] at h
          cases haw : _add_word d1 (pyLower ow) "ladino" (.list [ow]) with
          | error er => rw [haw] at h; simp at h
          | ok d2 =>
            rw [haw] at h
            simp only [] at h
            cases hsort : sortByKeyE ladinoPageKey pairLe
                ((alfind st.pagesLadino (pyLower ow)).getD [] ++ [e]) with
            | error er => rw [hsort] at h; simp at h
            | ok sortedPages =>
              rw [hsort] at h
              simp only [] at h
              have hkey : ∃ k, ladinoPageKey e = .ok k :=
                sortE_key_ok ladinoPageKey pairLe _ _ hsort e (by simp)
              have hd3 : ∀ d3, (match aw with
                    | some a => if a ≠ "" then _add_word d2 (pyLower ow) "accented" (.list [a])
                                else .ok d2
                    | none => .ok d2) = .ok d3 →
                  dictSorted st.dictLadino → dictSorted d3 := by
                intro d3 hd3eq hsorted
                have hd0 : dictSorted (if (alfind st.dictLadino (pyLower ow)).isSome
                    then st.dictLadino else alinsert st.dictLadino (pyLower ow) []) := by
                  split
                  · exact hsorted
                  · exact dictSorted_alinsert_empty _ _ hsorted
                have hd1 : dictSorted d1 :=
                  foldE_ok_inv _ dictSorted
                    (fun s a s' hp hstep => add_word_sorted s (pyLower ow) a.1 a.2 s' hp hstep)
                    tr _ d1 hd0 hfold
                have hd2 : dictSorted d2 := add_word_sorted d1 (pyLower ow) "ladino" _ d2 hd1 haw
                cases aw with
                | none => cases hd3eq; exact hd2
                | some a =>
                  simp only [] at hd3eq
                  by_cases ha : a ≠ ""
                  · rw [if_pos ha] at hd3eq
                    exact add_word_sorted d2 (pyLower ow) "accented" _ d3 hd2 hd3eq
                  · rw [if_neg ha] at hd3eq
                    cases hd3eq
                    exact hd2
              cases hacc : (match aw with
                  | some a => if a ≠ "" then _add_word d2 (pyLower ow) "accented" (.list [a])
                              else .ok d2
                  | none => .ok d2) with
              | error er => rw [hacc] at h; simp at h
              | ok d3 =>
                rw [hacc] at h
                simp only [] at h
                cases h
                refine ⟨rfl, rfl, hd3 d3 hacc, ?_, ?_, ?_, ⟨tr, rfl⟩, hkey⟩
                · intro hpl w l hl
                  by_cases hw : w = pyLower ow
                  · subst hw
                    rw [alfind_alinsert_self] at hl
                    cases hl
                    exact sortE_ladino_sorted _ _ hsort
                  · rw [alfind_alinsert_ne st.pagesLadino (pyLower ow) w _ hw] at hl
                    exact hpl w l hl
                · intro w x hx
                  by_cases hw : w = pyLower ow
                  · subst hw
                    rw [alfind_alinsert_self]
                    simp only [Option.getD]
                    exact ((sortE_mem _ _ _ _ hsort x).mpr (by
                      exact List.mem_append.mpr (Or.inl hx)))
                  · rw [alfind_alinsert_ne st.pagesLadino (pyLower ow) w _ hw]
                    exact hx
                · rw [alfind_alinsert_self]
                  simp only [Option.getD]
                  exact (sortE_mem _ _ _ _ hsort e).mpr (by simp)

theorem pagesForSorted_of_eq (s t : CIndex) (he : s.pagesForeign = t.pagesForeign)
    (hp : PagesForSorted t) : PagesForSorted s := by
  intro lang pm hm w l hl
  rw [he] at hm
  exact hp lang pm hm w l hl

theorem pagesLadSorted_of_eq (s t : CIndex) (he : s.pagesLadino = t.pagesLadino)
    (hp : PagesLadSorted t) : PagesLadSorted s := by
  intro w l hl
  rw [he] at hl
  exact hp w l hl

/-- Behaviour of the body of the foreign-word loop: the Ladino halves are
untouched and the foreign sortedness invariants are preserved. -/
theorem addForeignWord_spec (lang : String) (st : CIndex) (e : Entry)
    (w0 : String) (st' : CIndex) (h : addForeignWord lang st e w0 = .ok st') :
    st'.dictLadino = st.dictLadino ∧
    st'.pagesLadino = st.pagesLadino ∧
    (dictSorted st.dictForeign → dictSorted st'.dictForeign) ∧
    (PagesForSorted st → PagesForSorted st') := by
  simp only [addForeignWord] at h
  cases hf : alfind st.dictForeign lang with
  | none => rw [hf] at h; simp at h
  | some inner =>
    rw [hf] at h
    simp only [] at h
    cases hcw : bumpCountBy st.countWords lang 1 with
    | error er => rw [hcw] at h; simp at h
    | ok cw =>
      rw [hcw] at h
      simp only [] at h
      cases hpf : alfind st.pagesForeign lang with
      | none => rw [hpf] at h; simp at h
      | some pinner =>
        rw [hpf] at h
        simp only [] at h
        cases hsort : sortByKeyE jsonLenKey (fun a b => a ≤ b)
            ((alfind pinner (pyLower w0)).getD [] ++ [e]) with
        | error er => rw [hsort] at h; simp at h
        | ok sorted =>
          rw [hsort] at h
          simp only [] at h
          cases h
          refine ⟨rfl, rfl, ?_, ?_⟩
          · intro hd lang' m' hm' w' tl' htl'
            by_cases hl : lang' = lang
            · subst hl
              rw [alfind_alinsert_self] at hm'
              cases hm'
              by_cases hw : w' = pyLower w0
              · subst hw
                rw [alfind_alinsert_self] at htl'
                cases htl'
                exact pySortedSet_pairwise _
              · rw [alfind_alinsert_ne inner (pyLower w0) w' _ hw] at htl'
                exact hd lang' inner hf w' tl' htl'
            · rw [alfind_alinsert_ne st.dictForeign lang lang' _ hl] at hm'
              exact hd lang' m' hm' w' tl' htl'
          · intro hp lang' pm' hm' w' l' hl'
            by_cases hl : lang' = lang
            · subst hl
              rw [alfind_alinsert_self] at hm'
              cases hm'
              by_cases hw : w' = pyLower w0
              · subst hw
                rw [alfind_alinsert_self] at hl'
                cases hl'
                exact sortE_json_sorted _ _ hsort
              · rw [alfind_alinsert_ne pinner (pyLower w0) w' _ hw] at hl'
                exact hp lang' pinner hpf w' l' hl'
            · rw [alfind_alinsert_ne st.pagesForeign lang lang' _ hl] at hm'
              exact hp lang' pm' hm' w' l' hl'

/-- Behaviour of `_add_translated_words`: the Ladino halves are untouched
and the foreign sortedness invariants are preserved. -/
theorem add_translated_words_spec (lang : String) (st : CIndex) (e : Entry)
    (st' : CIndex) (h : _add_translated_words lang st e = .ok st') :
    st'.dictLadino = st.dictLadino ∧
    st'.pagesLadino = st.pagesLadino ∧
    (dictSorted st.dictForeign → dictSorted st'.dictForeign) ∧
    (PagesForSorted st → PagesForSorted st') := by
  unfold _add_translated_words at h
  cases htr : e.translations with
  | none => rw [htr] at h; simp at h
  | some tr =>
    rw [htr] at h
    simp only [] at h
    cases hf : alfind tr lang with
    | none =>
      rw [hf] at h
      simp only [] at h
      cases h
      exact ⟨rfl, rfl, fun x => x, fun x => x⟩
    | some tv =>
      rw [hf] at h
      simp only [] at h
      cases hiv : iterVal tv with
      | error er => rw [hiv] at h; simp at h
      | ok ws =>
        rw [hiv] at h
        simp only [] at h
        refine foldE_ok_inv _ (fun s =>
            s.dictLadino = st.dictLadino ∧ s.pagesLadino = st.pagesLadino ∧
            (dictSorted st.dictForeign → dictSorted s.dictForeign) ∧
            (PagesForSorted st → PagesForSorted s)) ?_ ws st st'
          ⟨rfl, rfl, fun x => x, fun x => x⟩ h
        intro s a s' hp hstep
        obtain ⟨h1, h2, h3, h4⟩ := addForeignWord_spec lang s e a s' hstep
        exact ⟨h1.trans hp.1, h2.trans hp.2.1,
          fun hd => h3 (hp.2.2.1 hd), fun hq => h4 (hp.2.2.2 hq)⟩

/-- Behaviour of one iteration of the `collect_data` loop: all four
sortedness invariants are preserved, Ladino pages only grow, the entry
lands in its lowercased headword's pages list, and success forces the
entry to carry a translations mapping and a computable Ladino pages sort
key. -/
theorem processEntry_spec (st : CIndex) (e : Entry) (st' : CIndex)
    (h : processEntry st e = .ok st') :
    (dictSorted st.dictLadino → dictSorted st'.dictLadino) ∧
    (dictSorted st.dictForeign → dictSorted st'.dictForeign) ∧
    (PagesLadSorted st → PagesLadSorted st') ∧
    (PagesForSorted st → PagesForSorted st') ∧
    (∀ w x, x ∈ (alfind st.pagesLadino w).getD [] →
      x ∈ (alfind st'.pagesLadino w).getD []) ∧
    e ∈ (alfind st'.pagesLadino (pyLower e.ladino)).getD [] ∧
    (∃ tr, e.translations = some tr) ∧ (∃ k, ladinoPageKey e = .ok k) := by
  unfold processEntry at h
  cases h1 : _add_ladino_word e.ladino e.accented st e with
  | error er => rw [h1] at h; simp at h
  | ok st1 =>
    rw [h1] at h
    simp only [] at h
    obtain ⟨hf1, hpf1, hdl1, hpl1, hmono1, hmem1, hextr, hekey⟩ :=
      add_ladino_word_spec e.ladino e.accented st e st1 h1
    cases h2 : (match e.altSpelling with
        | none => Except.ok st1
        | some alts =>
          foldE (fun s (alt : AltEntry) => _add_ladino_word alt.ladino alt.accented s e)
            st1 alts) with
    | error er => rw [h2] at h; simp at h
    | ok st2 =>
      rw [h2] at h
      simp only [] at h
      have hQ : st2.dictForeign = st1.dictForeign ∧ st2.pagesForeign = st1.pagesForeign ∧
          (dictSorted st1.dictLadino → dictSorted st2.dictLadino) ∧
          (PagesLadSorted st1 → PagesLadSorted st2) ∧
          (∀ w x, x ∈ (alfind st1.pagesLadino w).getD [] →
            x ∈ (alfind st2.pagesLadino w).getD []) := by
        cases halt : e.altSpelling with
        | none =>
          rw [halt] at h2
          cases h2
          exact ⟨rfl, rfl, fun x => x, fun x => x, fun w x hx => hx⟩
        | some alts =>
          rw [halt] at h2
          simp only [] at h2
          refine foldE_ok_inv _ (fun s =>
              s.dictForeign = st1.dictForeign ∧ s.pagesForeign = st1.pagesForeign ∧
              (dictSorted st1.dictLadino → dictSorted s.dictLadino) ∧
              (PagesLadSorted st1 → PagesLadSorted s) ∧
              (∀ w x, x ∈ (alfind st1.pagesLadino w).getD [] →
                x ∈ (alfind s.pagesLadino w).getD [])) ?_ alts st1 st2
            ⟨rfl, rfl, fun x => x, fun x => x, fun w x hx => hx⟩ h2
          intro s a s' hp hstep
          obtain ⟨hfa, hpfa, hdla, hpla, hmonoa, _, _, _⟩ :=
            add_ladino_word_spec a.ladino a.accented s e s' hstep
          exact ⟨hfa.trans hp.1, hpfa.trans hp.2.1,
            fun hd => hdla (hp.2.2.1 hd), fun hq => hpla (hp.2.2.2.1 hq),
            fun w x hx => hmonoa w x (hp.2.2.2.2 w x hx)⟩
      obtain ⟨hQf, hQpf, hQdl, hQpl, hQmono⟩ := hQ
      have hR : st'.dictLadino = st2.dictLadino ∧ st'.pagesLadino = st2.pagesLadino ∧
          (dictSorted st2.dictForeign → dictSorted st'.dictForeign) ∧
          (PagesForSorted st2 → PagesForSorted st') := by
        refine foldE_ok_inv _ (fun s =>
            s.dictLadino = st2.dictLadino ∧ s.pagesLadino = st2.pagesLadino ∧
            (dictSorted st2.dictForeign → dictSorted s.dictForeign) ∧
            (PagesForSorted st2 → PagesForSorted s)) ?_ pylanguages st2 st'
          ⟨rfl, rfl, fun x => x, fun x => x⟩ h
        intro s a s' hp hstep
        obtain ⟨hla, hpla, hdfa, hpfa⟩ := add_translated_words_spec a s e s' hstep
        exact ⟨hla.trans hp.1, hpla.trans hp.2.1,
          fun hd => hdfa (hp.2.2.1 hd), fun hq => hpfa (hp.2.2.2 hq)⟩
      obtain ⟨hRl, hRpl, hRdf, hRpf⟩ := hR
      refine ⟨?_, ?_, ?_, ?_, ?_, ?_, hextr, hekey⟩
      · intro hd
        rw [hRl]
        exact hQdl (hdl1 hd)
      · intro hd
        refine hRdf ?_
        rw [hQf, hf1]
        exact hd
      · intro hp
        refine pagesLadSorted_of_eq st' st2 hRpl (hQpl (hpl1 hp))
      · intro hp
        refine hRpf ?_
        refine pagesForSorted_of_eq st2 st ?_ hp
        rw [hQpf, hpf1]
      · intro w x hx
        rw [hRpl]
        exact hQmono w x (hmono1 w x hx)
      · rw [hRpl]
        exact hQmono _ e hmem1

/-- The processed entry produced by the loader from `c1Record`, used as the
concrete input of the `collect_data` witnesses. -/
def c1Entry : Entry where
  ladino := "Klaro"
  accented := none
  gender := some "masculine"
  number := some "singular"
  translations := some [("english", .list ["clear"])]
  altSpelling := none
  source := "klaro.yaml"
  examples := some [.map [("ladino", "Es klaro."), ("english", "It's clear.")]]
  comments := none

/-- Witness for C6 at the concrete `c1Record`. -/
theorem c6_witness :
    ∃ ws aes,
      processFile c1Config "klaro.yaml" c1Record = .ok (ws, aes) ∧
      ∃ lad e0 tl,
        ({ ladino := some "Klaro", accented := none, gender := some "masculine",
           number := some "singular",
           translations := some [("english", .str "clear")],
           altSpelling := none } : RawVersion).ladino = some lad ∧
        ws = e0 :: tl ∧ e0.ladino = lad ∧
        e0.examples = some [.map [("ladino", "Es klaro."), ("english", "It's clear.")]] ∧
        e0.comments = normEmpties c1Record.comments ∧
        (∀ e ∈ tl, e.examples = none ∧ e.comments = none) ∧
        aes = [PyExample.map [("ladino", "Es klaro."), ("english", "It's clear.")]].map
          (fun ex => { ex := ex, word := pyLower lad, source := "klaro.yaml" }) :=
  ⟨_, _, rfl, c6_examples_on_first_version c1Config "klaro.yaml" c1Record _ [] _ _ _
    rfl rfl (by decide) rfl⟩

theorem pairwise_pylts_fixpoint (l : List String) (h : List.Pairwise pylts l) :
    pySortedSet l = l := by
  unfold pySortedSet
  have hnd : l.Nodup := h.imp fun hab he =>
    absurd (he ▸ hab) (lt_irrefl _)
  rw [List.dedup_eq_self.mpr hnd]
  exact List.Sorted.insertionSort_eq (h.imp fun hab => le_of_lt hab)

/-- C8: after `collect_data`, every stored translation list — both under
`dictionary['ladino'][word][language]` and under
`dictionary[language][word]` — is strictly ascending, i.e. deduplicated and
sorted, and is a fixed point of `sorted(set(...))`. -/
theorem c8_translation_lists_sorted_dedup (src : List Entry) (st : CIndex)
    (h : collect_data src = .ok st) :
    (∀ w m, alfind st.dictLadino w = some m → ∀ t tl, alfind m t = some tl →
      List.Pairwise pylts tl ∧ pySortedSet tl = tl) ∧
    (∀ lang m, alfind st.dictForeign lang = some m → ∀ w tl, alfind m w = some tl →
      List.Pairwise pylts tl ∧ pySortedSet tl = tl) := by
  unfold collect_data at h
  have hinv : dictSorted st.dictLadino ∧ dictSorted st.dictForeign := by
    refine foldE_ok_inv processEntry
      (fun s => dictSorted s.dictLadino ∧ dictSorted s.dictForeign) ?_
      src emptyCIndex st ⟨?_, ?_⟩ h
    · intro s a s' hp hstep
      obtain ⟨h1, h2, _⟩ := processEntry_spec s a s' hstep
      exact ⟨h1 hp.1, h2 hp.2⟩
    · intro w m hm
      simp [emptyCIndex, alfind] at hm
    · intro lang m hm t tl htl
      have hm' := alfind_map_nil pylanguages lang m hm
      subst hm'
      simp [alfind] at htl
  exact ⟨fun w m hm t tl htl =>
      ⟨hinv.1 w m hm t tl htl, pairwise_pylts_fixpoint tl (hinv.1 w m hm t tl htl)⟩,
    fun lang m hm w tl htl =>
      ⟨hinv.2 lang m hm w tl htl, pairwise_pylts_fixpoint tl (hinv.2 lang m hm w tl htl)⟩⟩

/-- Witness for C8 at the singleton entry list. -/
theorem c8_witness :
    ∃ st, collect_data [c1Entry] = .ok st ∧
      ∀ w m, alfind st.dictLadino w = some m → ∀ t tl, alfind m t = some tl →
        List.Pairwise pylts tl ∧ pySortedSet tl = tl :=
  ⟨_, rfl, (c8_translation_lists_sorted_dedup [c1Entry] _ rfl).1⟩

/-- C7: after `collect_data`, every processed entry is a member of the
pages list of its lowercased headword (so homographs share one pages
entry), every Ladino pages list is ordered ascending by the pair
`(original-case headword, first english translation)`, and every
foreign-language pages list is ordered by the length of the JSON
serialization of the entry. -/
theorem c7_homograph_pages (src : List Entry) (st : CIndex)
    (h : collect_data src = .ok st) :
    (∀ e ∈ src, e ∈ (alfind st.pagesLadino (pyLower e.ladino)).getD []) ∧
    (∀ w l, alfind st.pagesLadino w = some l →
      List.Pairwise (keyedLe ladinoPageKey pairLe) l) ∧
    (∀ lang pm, alfind st.pagesForeign lang = some pm →
      ∀ w l, alfind pm w = some l →
        List.Pairwise (keyedLe jsonLenKey (fun a b => a ≤ b)) l) := by
  unfold collect_data at h
  refine ⟨?_, ?_, ?_⟩
  · intro e he
    refine foldE_ok_post processEntry
      (fun a s => a ∈ (alfind s.pagesLadino (pyLower a.ladino)).getD []) ?_ ?_
      src emptyCIndex st h e he
    · intro s a s' hstep
      exact (processEntry_spec s a s' hstep).2.2.2.2.2.1
    · intro b s a s' hp hstep
      exact (processEntry_spec s a s' hstep).2.2.2.2.1 _ b hp
  · refine foldE_ok_inv processEntry PagesLadSorted ?_ src emptyCIndex st ?_ h
    · intro s a s' hp hstep
      exact (processEntry_spec s a s' hstep).2.2.1 hp
    · intro w l hl
      simp [emptyCIndex, alfind] at hl
  · refine foldE_ok_inv processEntry PagesForSorted ?_ src emptyCIndex st ?_ h
    · intro s a s' hp hstep
      exact (processEntry_spec s a s' hstep).2.2.2.1 hp
    · intro lang pm hm w l hl
      have hm' := alfind_map_nil pylanguages lang pm hm
      subst hm'
      simp [alfind] at hl

/-- Witness for C7 at the singleton entry list. -/
theorem c7_witness :
    ∃ st, collect_data [c1Entry] = .ok st ∧
      c1Entry ∈ (alfind st.pagesLadino (pyLower c1Entry.ladino)).getD [] :=
  ⟨_, rfl, (c7_homograph_pages [c1Entry] _ rfl).1 c1Entry (by simp)⟩

/-- C10: `collect_data` completes only when every processed version carries
a `translations` mapping and a computable Ladino pages sort key (in
particular, colliding versions must have a non-empty english value);
a version without `translations` makes `_add_ladino_word` raise `KeyError`,
and the pages sort key raises `KeyError` when `english` is absent and
`IndexError` when it is empty. -/
theorem c10_collect_data_requires_translations :
    (∀ src st, collect_data src = .ok st → ∀ e ∈ src,
      (∃ tr, e.translations = some tr) ∧ (∃ k, ladinoPageKey e = .ok k)) ∧
    (∀ e : Entry, e.translations = none →
      _add_ladino_word e.ladino e.accented emptyCIndex e =
        .error (.keyErr "translations")) ∧
    (∀ (e : Entry) tr, e.translations = some tr → alfind tr "english" = none →
      ladinoPageKey e = .error (.keyErr "english")) ∧
    (∀ (e : Entry) tr, e.translations = some tr →
      alfind tr "english" = some (.list []) →
      ladinoPageKey e = .error .idxErr) := by
  refine ⟨?_, ?_, ?_, ?_⟩
  · intro src st h e he
    unfold collect_data at h
    obtain ⟨t, t', hstep⟩ := foldE_ok_elem processEntry src emptyCIndex st h e he
    exact ⟨(processEntry_spec t e t' hstep).2.2.2.2.2.2.1,
      (processEntry_spec t e t' hstep).2.2.2.2.2.2.2⟩
  · intro e h
    simp [_add_ladino_word, bumpCountBy, emptyCIndex, pylanguages, alfind, alinsert, h]
  · intro e tr h1 h2
    simp [ladinoPageKey, h1, h2]
  · intro e tr h1 h2
    simp [ladinoPageKey, h1, h2]

/-- An entry without a `translations` mapping. -/
def c10Entry : Entry where
  ladino := "x"
  accented := none
  gender := none
  number := none
  translations := none
  altSpelling := none
  source := "x.yaml"
  examples := none
  comments := none

/-- Witness for C10 at concrete entries. -/
theorem c10_witness :
    (∃ tr, c1Entry.translations = some tr) ∧
    _add_ladino_word c10Entry.ladino c10Entry.accented emptyCIndex c10Entry =
      .error (.keyErr "translations") :=
  ⟨(c10_collect_data_requires_translations.1 [c1Entry] _ rfl c1Entry (by simp)).1,
   c10_collect_data_requires_translations.2.1 c10Entry rfl⟩

end Ladino
